import Mathlib

/-!
Verification development for the reelpod-studio audio generation queue
(`backend/services/audio_service.py`) and its external task client
(`backend/repositories/acestep_repository.py`).

The Python code is shallowly embedded: the module-level mutable store
(`queue_items`, `queue_order`, the worker thread position) becomes an
explicit state type `SysState`; the worker loop body is split at its lock
boundaries into a dequeue step and a finish step; Python exceptions become
an explicit `PyErr` value (exception class + message); bytes become
`List Nat`; JSON values become the inductive `Json`.
-/

namespace ReelpodStudio

/-- Python exception classes that can arise in the audio pipeline. -/
inductive ExcKind where
  | runtimeError
  | urlError
  | httpError
  | jsonDecodeError
  | timeoutError
  | attributeError
deriving DecidableEq, Repr

/-- A raised Python exception: its class and its message. -/
structure PyErr where
  kind : ExcKind
  msg : String
deriving DecidableEq, Repr

/-- JSON values as decoded by `json.loads` (integral numbers only). -/
inductive Json where
  | null
  | bool (b : Bool)
  | num (n : Int)
  | str (s : String)
  | arr (items : List Json)
  | obj (fields : List (String × Json))

/-- Python truthiness of a decoded JSON value. -/
def truthy : Json → Bool
  | Json.null => false
  | Json.bool b => b
  | Json.num n => decide (n ≠ 0)
  | Json.str s => decide (s ≠ "")
  | Json.arr l => !l.isEmpty
  | Json.obj l => !l.isEmpty

/-- Python `value == n` for an `int` literal `n` (`True == 1` holds). -/
def jsonEqInt : Json → Int → Bool
  | Json.num m, n => decide (m = n)
  | Json.bool b, n => decide ((if b then (1 : Int) else 0) = n)
  | _, _ => false

/-- Lookup in an association list keyed by strings (dict access). -/
def alookup {α : Type} : List (String × α) → String → Option α
  | [], _ => none
  | (k, v) :: rest, key => if k = key then some v else alookup rest key

/-- Replace the value stored under a key, leaving other entries alone. -/
def aset {α : Type} (l : List (String × α)) (key : String) (v : α) : List (String × α) :=
  l.map (fun p => if p.1 = key then (key, v) else p)

/-- Python `value.get(key)`: succeeds on a dict, raises `AttributeError`
on anything else. -/
def json_get (j : Json) (key : String) : Except PyErr (Option Json) :=
  match j with
  | Json.obj fields => Except.ok (alookup fields key)
  | _ => Except.error ⟨ExcKind.attributeError, "object has no attribute get"⟩

/-- Possible outcomes of one `urlopen` POST round-trip, as seen by
`post_json`: a transport failure, an unparsable body, or a decoded body. -/
inductive PostResp where
  | urlErr
  | httpErr
  | timeoutErr
  | invalidJson
  | json (j : Json)

/-- Model of `acestep_repository.post_json`: transport errors and the JSON
decode error propagate as-is; a decoded non-dict body raises
`RuntimeError("Unexpected JSON response")`. -/
def post_json : PostResp → Except PyErr (List (String × Json))
  | PostResp.urlErr => Except.error ⟨ExcKind.urlError, "URLError"⟩
  | PostResp.httpErr => Except.error ⟨ExcKind.httpError, "HTTPError"⟩
  | PostResp.timeoutErr => Except.error ⟨ExcKind.timeoutError, "timed out"⟩
  | PostResp.invalidJson => Except.error ⟨ExcKind.jsonDecodeError, "Expecting value"⟩
  | PostResp.json (Json.obj fields) => Except.ok fields
  | PostResp.json _ => Except.error ⟨ExcKind.runtimeError, "Unexpected JSON response"⟩

/-- Python `response.get("data") or fallback`. -/
def dataOr (fields : List (String × Json)) (fallback : Json) : Json :=
  match alookup fields "data" with
  | some v => if truthy v then v else fallback
  | none => fallback

/-- The `RuntimeError` raised by `submit_task` when no task id is found. -/
def missingTaskIdErr : PyErr := ⟨ExcKind.runtimeError, "Missing task_id in response"⟩

/-- Model of `acestep_repository.submit_task`, lines 51-70: accepts the
payload either under a `data` envelope or flat, and requires a non-empty
string `task_id`. -/
def submit_task (resp : PostResp) : Except PyErr String :=
  match post_json resp with
  | Except.error e => Except.error e
  | Except.ok response =>
    let data : Json := dataOr response (Json.obj response)
    let task_id : Option Json :=
      match data with
      | Json.obj fs => alookup fs "task_id"
      | _ => none
    match task_id with
    | some (Json.str s) => if s = "" then Except.error missingTaskIdErr else Except.ok s
    | _ => Except.error missingTaskIdErr

/-- The `RuntimeError` raised when the poll loop sees status 2. -/
def taskFailedErr : PyErr := ⟨ExcKind.runtimeError, "ACE-Step task failed"⟩

/-- The `RuntimeError` raised when the poll loop exhausts its attempts. -/
def pollTimedOutErr : PyErr := ⟨ExcKind.runtimeError, "ACE-Step task polling timed out"⟩

/-- The constant `MAX_POLL_ATTEMPTS` from `models/constants.py`. -/
def MAX_POLL_ATTEMPTS : Nat := 1200

/-- One iteration's item selection in `poll_until_complete`:
`data = response.get("data") or []` followed by
`item = data[0] if isinstance(data, list) and data else data if isinstance(data, dict) else {}`. -/
def poll_query_item (fields : List (String × Json)) : Json :=
  let data := dataOr fields (Json.arr [])
  match data with
  | Json.arr (x :: _) => x
  | Json.obj fs => Json.obj fs
  | _ => Json.obj []

/-- Python `status == n` where `status` may be `None` (a missing field). -/
def statusIsB (status : Option Json) (n : Int) : Bool :=
  match status with
  | some j => jsonEqInt j n
  | none => false

/-- The status value one poll iteration computes from a query response, or
the exception that iteration raises before looking at the status. -/
def pollRespStatus (r : PostResp) : Except PyErr (Option Json) :=
  match post_json r with
  | Except.error e => Except.error e
  | Except.ok fields => json_get (poll_query_item fields) "status"

/-- A query response the poll loop sleeps on and retries after: its status
field is read successfully and compares equal to neither 1 nor 2. -/
def pendingClassB (r : PostResp) : Bool :=
  match pollRespStatus r with
  | Except.error _ => false
  | Except.ok status => !statusIsB status 1 && !statusIsB status 2

/-- The poll loop of `poll_until_complete`, fueled by the remaining attempt
count; also counts the number of query POSTs actually sent.  Status 1
returns the item, status 2 raises `taskFailedErr` at once, anything else
(0, 3, a missing status, ...) sleeps and retries; running out of attempts
raises `pollTimedOutErr`. -/
def pollGo (resp : Nat → PostResp) : Nat → Nat → Except PyErr Json × Nat
  | 0, calls => (Except.error pollTimedOutErr, calls)
  | fuel + 1, calls =>
    match post_json (resp calls) with
    | Except.error e => (Except.error e, calls + 1)
    | Except.ok fields =>
      let item := poll_query_item fields
      match json_get item "status" with
      | Except.error e => (Except.error e, calls + 1)
      | Except.ok status =>
        if statusIsB status 1 then (Except.ok item, calls + 1)
        else if statusIsB status 2 then (Except.error taskFailedErr, calls + 1)
        else pollGo resp fuel (calls + 1)

/-- Model of `acestep_repository.poll_until_complete`, lines 73-84; the
second component is the number of query requests sent. -/
def poll_until_complete (resp : Nat → PostResp) : Except PyErr Json × Nat :=
  pollGo resp MAX_POLL_ATTEMPTS 0

/-- The loop over list candidates in `extract_file_path`: the first dict
with a non-empty string `file` field wins. -/
def firstFilePath : List Json → Option String
  | [] => none
  | item :: rest =>
    match item with
    | Json.obj fs =>
      match alookup fs "file" with
      | some (Json.str f) => if f = "" then firstFilePath rest else some f
      | _ => firstFilePath rest
    | _ => firstFilePath rest

/-- Model of `acestep_repository.extract_file_path`, lines 87-105.
`jsonLoads` stands for `json.loads` on the embedded result string; `none`
means the string is not valid JSON (a `json.JSONDecodeError`). -/
def extract_file_path (jsonLoads : String → Option Json) (response : Json) :
    Except PyErr String :=
  match json_get response "result" with
  | Except.error e => Except.error e
  | Except.ok result_json =>
    match result_json with
    | some (Json.str s) =>
      match jsonLoads s with
      | none => Except.error ⟨ExcKind.jsonDecodeError, "Expecting value"⟩
      | some parsed =>
        match parsed with
        | Json.arr items =>
          match firstFilePath items with
          | some f => Except.ok f
          | none => Except.error ⟨ExcKind.runtimeError, "No valid file path in result list"⟩
        | Json.obj fs =>
          match alookup fs "file" with
          | some (Json.str f) =>
            if f = "" then Except.error ⟨ExcKind.runtimeError, "Missing file path in result"⟩
            else Except.ok f
          | _ => Except.error ⟨ExcKind.runtimeError, "Missing file path in result"⟩
        | _ => Except.error ⟨ExcKind.runtimeError, "Missing file path in result"⟩
    | _ => Except.error ⟨ExcKind.runtimeError, "Missing result JSON"⟩

/-- Possible outcomes of one `urlopen` GET round-trip in `get_bytes`. -/
inductive FetchOutcome where
  | urlErr
  | httpErr
  | timeoutErr
  | ok (bs : List Nat)

/-- Model of `acestep_repository.get_bytes`. -/
def get_bytes (fetch : String → FetchOutcome) (url : String) : Except PyErr (List Nat) :=
  match fetch url with
  | FetchOutcome.urlErr => Except.error ⟨ExcKind.urlError, "URLError"⟩
  | FetchOutcome.httpErr => Except.error ⟨ExcKind.httpError, "HTTPError"⟩
  | FetchOutcome.timeoutErr => Except.error ⟨ExcKind.timeoutError, "timed out"⟩
  | FetchOutcome.ok bs => Except.ok bs

/-- Model of `acestep_repository.make_absolute_url`. -/
def make_absolute_url (api_url : String) (path : String) : String :=
  if path.startsWith "http://" ∨ path.startsWith "https://" then path
  else api_url ++ "/" ++ path.dropWhile (fun c => c = '/')

/-- The remote environment one run of the pipeline interacts with: the
response to the release POST, the responses to the query POSTs (by attempt
index), the behavior of `json.loads` on result strings, and the behavior
of the artifact GET. -/
structure Env where
  submit_resp : PostResp
  query_resp : Nat → PostResp
  json_loads : String → Option Json
  fetch : String → FetchOutcome
  api_url : String

/-- Model of `acestep_repository.generate_audio_bytes_for_prompt`,
lines 108-116: submit, poll, extract the file path, fetch the bytes; the
first failure at any step propagates. -/
def generate_audio_bytes_for_prompt (env : Env) : Except PyErr (List Nat) :=
  match submit_task env.submit_resp with
  | Except.error e => Except.error e
  | Except.ok _task_id =>
    match (poll_until_complete env.query_resp).1 with
    | Except.error e => Except.error e
    | Except.ok completed_task =>
      match extract_file_path env.json_loads completed_task with
      | Except.error e => Except.error e
      | Except.ok file_path => get_bytes env.fetch (make_absolute_url env.api_url file_path)

/-- The `QueueItemStatus` literal type from `models/queue.py`. -/
inductive Status where
  | queued
  | generating
  | completed
  | failed
deriving DecidableEq, Repr

/-- The `mode` literal of `GenerateRequestBody` in `models/schemas.py`. -/
inductive Mode where
  | text
  | text_plus_params
  | text_and_parameters
  | params
  | parameters
deriving DecidableEq, Repr

/-- The validated request body (`models/schemas.py`). -/
structure GenerateRequestBody where
  mode : Mode
  prompt : Option String
  mood : String
  tempo : Int
  duration : Int
  style : String
deriving DecidableEq, Repr

/-- The `GenerationQueueItem` dataclass from `models/queue.py`. -/
structure GenerationQueueItem where
  id : String
  prompt : String
  status : Status
  tempo : Int
  duration : Int
  wav_bytes : Option (List Nat)
  error_message : Option String
deriving DecidableEq, Repr

/-- Position of the single worker thread relative to its lock regions:
between a dequeue and the corresponding outcome write-back it is busy on
one job id. -/
inductive WorkerPhase where
  | idle
  | busy (id : String)
deriving DecidableEq, Repr

/-- The module-level mutable state of `audio_service.py` (`queue_items`,
`queue_order`) plus the worker position and, as ghost state, every id ever
returned by `uuid4` (ids are globally unique for the process lifetime). -/
structure SysState where
  queue_items : List (String × GenerationQueueItem)
  queue_order : List String
  used_ids : List String
  worker : WorkerPhase
deriving DecidableEq, Repr

/-- Model of `audio_service.build_prompt`. -/
def build_prompt (body : GenerateRequestBody) : String :=
  match body.mode with
  | Mode.text => body.prompt.getD ""
  | Mode.text_plus_params =>
    body.prompt.getD "" ++ ", " ++ body.mood ++ ", " ++ body.style ++ ", "
      ++ toString body.tempo ++ " BPM"
  | Mode.text_and_parameters =>
    body.prompt.getD "" ++ ", " ++ body.mood ++ ", " ++ body.style ++ ", "
      ++ toString body.tempo ++ " BPM"
  | _ => body.mood ++ " lofi " ++ body.style ++ ", " ++ toString body.tempo ++ " BPM"

/-- The `GenerationQueueItem(...)` constructor call inside
`enqueue_generation_request`: status starts at queued, and the stored
tempo is forced to 80 in text mode. -/
def new_queue_item (fresh_id : String) (body : GenerateRequestBody) : GenerationQueueItem :=
  { id := fresh_id
    prompt := build_prompt body
    status := Status.queued
    tempo := if body.mode = Mode.text then 80 else body.tempo
    duration := body.duration
    wav_bytes := none
    error_message := none }

/-- Model of `audio_service.enqueue_generation_request`, lines 56-69: the
fresh uuid is passed in explicitly; the created item is stored under its
id, the id is appended to the order deque, and the item is returned. -/
def enqueue_generation_request (st : SysState) (fresh_id : String)
    (body : GenerateRequestBody) : SysState × GenerationQueueItem :=
  let item : GenerationQueueItem := new_queue_item fresh_id body
  ({ st with
      queue_items := st.queue_items ++ [(fresh_id, item)]
      queue_order := st.queue_order ++ [fresh_id]
      used_ids := fresh_id :: st.used_ids },
   item)

/-- The first locked region of `_queue_worker` (lines 106-119): pop the
front id; if the item vanished, continue; otherwise mark it generating,
clear any stale error, and go process it. -/
def queue_worker_dequeue (st : SysState) : SysState :=
  match st.queue_order with
  | [] => st
  | next_item_id :: rest =>
    match alookup st.queue_items next_item_id with
    | none => { st with queue_order := rest }
    | some item =>
      { st with
          queue_order := rest
          queue_items := aset st.queue_items next_item_id
            { item with status := Status.generating, error_message := none }
          worker := WorkerPhase.busy next_item_id }

/-- The outcome write-back of `_queue_worker` (lines 121-152): on any
caught exception the job is failed with the generic message and its bytes
cleared; on success it is completed with the returned bytes; either way
the write is skipped if the item vanished, and the worker returns to its
idle wait. -/
def queue_worker_finish (st : SysState) (next_item_id : String)
    (outcome : Except PyErr (List Nat)) : SysState :=
  let st2 : SysState :=
    match alookup st.queue_items next_item_id, outcome with
    | none, _ => st
    | some item, Except.error _ =>
      { st with
          queue_items := aset st.queue_items next_item_id
            { item with
                status := Status.failed
                error_message := some "Audio generation failed"
                wav_bytes := none } }
    | some item, Except.ok wav =>
      { st with
          queue_items := aset st.queue_items next_item_id
            { item with
                status := Status.completed
                error_message := none
                wav_bytes := some wav } }
  { st2 with worker := WorkerPhase.idle }

/-- Model of `audio_service.reset_generation_queue_for_tests`. -/
def reset_generation_queue_for_tests (st : SysState) : SysState :=
  { st with queue_items := [], queue_order := [] }

instance {ε α : Type} [DecidableEq ε] [DecidableEq α] : DecidableEq (Except ε α) := fun a b =>
  match a, b with
  | Except.ok x, Except.ok y =>
    if h : x = y then isTrue (h ▸ rfl) else isFalse (fun hh => h (Except.ok.inj hh))
  | Except.error x, Except.error y =>
    if h : x = y then isTrue (h ▸ rfl) else isFalse (fun hh => h (Except.error.inj hh))
  | Except.ok _, Except.error _ => isFalse (fun hh => Except.noConfusion hh)
  | Except.error _, Except.ok _ => isFalse (fun hh => Except.noConfusion hh)

/-- Observable events of the system: an enqueue with a fresh uuid, the
worker picking up the next job, the worker writing back one job's outcome,
and the test-only reset. -/
inductive Ev where
  | enq (id : String) (body : GenerateRequestBody)
  | deq (id : String)
  | fin (id : String) (outcome : Except PyErr (List Nat))
  | reset
deriving DecidableEq

/-- State transition performed by each event. -/
def stepFn (st : SysState) : Ev → SysState
  | Ev.enq id body => (enqueue_generation_request st id body).1
  | Ev.deq _ => queue_worker_dequeue st
  | Ev.fin id outcome => queue_worker_finish st id outcome
  | Ev.reset => reset_generation_queue_for_tests st

/-- Guard for each event: enqueue needs a fresh uuid; the worker dequeues
only from its idle wait and only the current front id; it writes back only
the job it is busy on. -/
def enabledB (st : SysState) : Ev → Bool
  | Ev.enq id _ => decide (id ∉ st.used_ids)
  | Ev.deq id => decide (st.worker = WorkerPhase.idle) && decide (st.queue_order.head? = some id)
  | Ev.fin id _ => decide (st.worker = WorkerPhase.busy id)
  | Ev.reset => true

/-- Run a sequence of events. -/
def runEvents (st : SysState) : List Ev → SysState
  | [] => st
  | e :: evs => runEvents (stepFn st e) evs

/-- An event sequence is legal when every event is enabled where it fires. -/
def legalB (st : SysState) : List Ev → Bool
  | [] => true
  | e :: evs => enabledB st e && legalB (stepFn st e) evs

/-- The state at process start: empty store, empty queue, idle worker. -/
def initState : SysState :=
  { queue_items := [], queue_order := [], used_ids := [], worker := WorkerPhase.idle }

/-- States reachable from process start by legal event sequences. -/
def Reachable (st : SysState) : Prop :=
  ∃ evs, legalB initState evs = true ∧ st = runEvents initState evs

/-- Status currently stored for a job id. -/
def statusOf (st : SysState) (id : String) : Option Status :=
  (alookup st.queue_items id).map GenerationQueueItem.status

/-- Error message currently stored for a job id. -/
def errorMessageOf (st : SysState) (id : String) : Option String :=
  (alookup st.queue_items id).bind GenerationQueueItem.error_message

/-- Model of `audio_service.get_queue_item_snapshot` (the copy is the
identity on immutable values). -/
def get_queue_item_snapshot (st : SysState) (item_id : String) :
    Option GenerationQueueItem :=
  alookup st.queue_items item_id

/-- The error taxonomy of `models/errors.py` used by the facades. -/
inductive AudioServiceError where
  | queueItemNotFound
  | audioGenerationTimeout
  | audioGenerationFailed
  | audioNotReady
deriving DecidableEq, Repr

/-- Model of `audio_service.wait_for_terminal_status` observed at the
moment its deadline elapses: the last re-check under the lock returns the
terminal snapshot if there is one and `None` otherwise, mutating nothing.
The state is returned to make the absence of writes explicit. -/
def wait_for_terminal_status_at_deadline (st : SysState) (item_id : String) :
    Option GenerationQueueItem × SysState :=
  match alookup st.queue_items item_id with
  | none => (none, st)
  | some item =>
    if item.status = Status.completed ∨ item.status = Status.failed then (some item, st)
    else (none, st)

/-- Model of the tail of `audio_service.generate_audio_for_request`
(lines 186-193) when the wait reaches its deadline at state `st`: a `None`
wait result raises the timeout error, a failed or byte-less result raises
the generic failure, otherwise the bytes are returned. -/
def generate_audio_for_request_at_deadline (st : SysState) (item_id : String) :
    Except AudioServiceError (List Nat) × SysState :=
  match wait_for_terminal_status_at_deadline st item_id with
  | (none, st2) => (Except.error AudioServiceError.audioGenerationTimeout, st2)
  | (some completed_item, st2) =>
    match completed_item.wav_bytes with
    | none => (Except.error AudioServiceError.audioGenerationFailed, st2)
    | some bs =>
      if completed_item.status = Status.failed
      then (Except.error AudioServiceError.audioGenerationFailed, st2)
      else (Except.ok bs, st2)

/-- Model of `audio_service.get_generation_request_audio`, lines 209-217. -/
def get_generation_request_audio (st : SysState) (item_id : String) :
    Except AudioServiceError (List Nat) :=
  match get_queue_item_snapshot st item_id with
  | none => Except.error AudioServiceError.queueItemNotFound
  | some item =>
    if item.status = Status.failed then Except.error AudioServiceError.audioGenerationFailed
    else
      match item.wav_bytes with
      | none => Except.error AudioServiceError.audioNotReady
      | some bs =>
        if item.status = Status.completed then Except.ok bs
        else Except.error AudioServiceError.audioNotReady

/-- The statuses a job id exhibits along a run, one observation per state
visited (including the start state). -/
def statusTrace (id : String) (st : SysState) : List Ev → List Status
  | [] => (statusOf st id).toList
  | e :: evs => (statusOf st id).toList ++ statusTrace id (stepFn st e) evs

/-- Collapse adjacent equal statuses, keeping only the changes. -/
def dedupAdj : List Status → List Status
  | [] => []
  | [s] => [s]
  | s :: t :: rest => if s = t then dedupAdj (t :: rest) else s :: dedupAdj (t :: rest)

/-- The canonical status chain from a given status to a given terminal. -/
def canonTo (term : Status) : Status → List Status
  | Status.queued => [Status.queued, Status.generating, term]
  | Status.generating => [Status.generating, term]
  | s => [s]

/-- Ids of jobs completed by the worker, in event order. -/
def compIds : List Ev → List String
  | [] => []
  | Ev.fin id (Except.ok _) :: evs => id :: compIds evs
  | _ :: evs => compIds evs

/-- Ids of jobs enqueued, in event order. -/
def enqIds : List Ev → List String
  | [] => []
  | Ev.enq id _ :: evs => id :: enqIds evs
  | _ :: evs => enqIds evs

/-- An event is a successful external-client invocation or not a worker
write-back at all. -/
def isSuccessEv : Ev → Bool
  | Ev.fin _ (Except.error _) => false
  | _ => true

/-- An event other than the test-only reset. -/
def isNotResetEv : Ev → Bool
  | Ev.reset => false
  | _ => true

/-- Ids whose processing is still pending: the one the worker is busy on,
then the queue in order. -/
def pendingIds (st : SysState) : List String :=
  (match st.worker with
   | WorkerPhase.busy b => [b]
   | WorkerPhase.idle => []) ++ st.queue_order

/-- A schedule that drains the given queue with an always-successful
external client. -/
def drainQueue : List String → List Ev
  | [] => []
  | id :: rest => Ev.deq id :: Ev.fin id (Except.ok []) :: drainQueue rest

/-- Projection of an event sequence to the worker's own events. -/
def workerEvsOnly : List Ev → List Ev
  | [] => []
  | Ev.deq id :: evs => Ev.deq id :: workerEvsOnly evs
  | Ev.fin id o :: evs => Ev.fin id o :: workerEvsOnly evs
  | _ :: evs => workerEvsOnly evs

/-- The worker's events strictly alternate: from idle it may only dequeue
a job, and it must write that job's outcome back before dequeuing the
next one. -/
inductive AltFrom : WorkerPhase → List Ev → Prop where
  | nil (w : WorkerPhase) : AltFrom w []
  | deq (id : String) (l : List Ev) :
      AltFrom (WorkerPhase.busy id) l → AltFrom WorkerPhase.idle (Ev.deq id :: l)
  | fin (id : String) (o : Except PyErr (List Nat)) (l : List Ev) :
      AltFrom WorkerPhase.idle l → AltFrom (WorkerPhase.busy id) (Ev.fin id o :: l)

/-- The store invariant maintained by every legal step: keys are unique,
ids are globally unique and self-consistent, queued ids are exactly the
stored-and-waiting ones, at most the busy job is generating, and result
bytes and error messages match the status. -/
structure Inv (st : SysState) : Prop where
  keys_nodup : (st.queue_items.map Prod.fst).Nodup
  keys_id : ∀ p ∈ st.queue_items, p.2.id = p.1
  keys_used : ∀ p ∈ st.queue_items, p.1 ∈ st.used_ids
  order_used : ∀ i ∈ st.queue_order, i ∈ st.used_ids
  order_keys : ∀ i ∈ st.queue_order, ∃ it, alookup st.queue_items i = some it
  order_nodup : st.queue_order.Nodup
  busy_used : ∀ b, st.worker = WorkerPhase.busy b → b ∈ st.used_ids
  busy_not_in_order : ∀ b, st.worker = WorkerPhase.busy b → b ∉ st.queue_order
  busy_status : ∀ b it, st.worker = WorkerPhase.busy b →
    alookup st.queue_items b = some it → it.status = Status.generating
  gen_busy : ∀ i it, alookup st.queue_items i = some it →
    it.status = Status.generating → st.worker = WorkerPhase.busy i
  order_queued : ∀ i ∈ st.queue_order, ∀ it,
    alookup st.queue_items i = some it → it.status = Status.queued
  wav_iff : ∀ p ∈ st.queue_items,
    (p.2.wav_bytes.isSome = true ↔ p.2.status = Status.completed)
  err_iff : ∀ p ∈ st.queue_items,
    (p.2.error_message.isSome = true ↔ p.2.status = Status.failed)

/-- A concrete valid request body (the schema defaults). -/
def sampleBody : GenerateRequestBody :=
  { mode := Mode.params, prompt := none, mood := "chill", tempo := 80,
    duration := 40, style := "jazz" }

/-- A concrete text-mode request body carrying a caller-supplied tempo. -/
def sampleTextBody : GenerateRequestBody :=
  { mode := Mode.text, prompt := some "rainy evening", mood := "chill",
    tempo := 95, duration := 40, style := "jazz" }

/-- A well-formed query response whose single task record has the given
integer status. -/
def respWithStatus (n : Int) : PostResp :=
  PostResp.json (Json.obj [("data", Json.arr [Json.obj [("status", Json.num n)]])])

/-- An environment whose release POST fails at the transport layer. -/
def envTransport : Env :=
  { submit_resp := PostResp.urlErr
    query_resp := fun _ => PostResp.urlErr
    json_loads := fun _ => none
    fetch := fun _ => FetchOutcome.ok []
    api_url := "http://localhost:8001" }

/-- An environment whose release POST returns an unparsable body. -/
def envParse : Env :=
  { submit_resp := PostResp.invalidJson
    query_resp := fun _ => PostResp.invalidJson
    json_loads := fun _ => none
    fetch := fun _ => FetchOutcome.ok []
    api_url := "http://localhost:8001" }

theorem alookup_append_of_none {α : Type} {l1 : List (String × α)} (l2 : List (String × α))
    {k : String} (h : alookup l1 k = none) : alookup (l1 ++ l2) k = alookup l2 k := by
  induction l1 with
  | nil => simp
  | cons p rest ih =>
    obtain ⟨k1, v1⟩ := p
    by_cases hk : k1 = k
    · simp [alookup, hk] at h
    · simp only [alookup, hk, if_false] at h
      simpa [alookup, hk] using ih h

theorem alookup_append_of_some {α : Type} {l1 : List (String × α)} (l2 : List (String × α))
    {k : String} {v : α} (h : alookup l1 k = some v) : alookup (l1 ++ l2) k = some v := by
  induction l1 with
  | nil => simp [alookup] at h
  | cons p rest ih =>
    obtain ⟨k1, v1⟩ := p
    by_cases hk : k1 = k
    · simp only [alookup, hk, if_true] at h
      simp [alookup, hk, h]
    · simp only [alookup, hk, if_false] at h
      simpa [alookup, hk] using ih h

theorem alookup_eq_none_iff {α : Type} {l : List (String × α)} {k : String} :
    alookup l k = none ↔ k ∉ l.map Prod.fst := by
  induction l with
  | nil => simp [alookup]
  | cons p rest ih =>
    obtain ⟨k1, v1⟩ := p
    by_cases hk : k1 = k
    · subst hk
      simp [alookup]
    · simp [alookup, hk, ih, Ne.symm hk]

theorem alookup_mem {α : Type} {l : List (String × α)} {k : String} {v : α}
    (h : alookup l k = some v) : (k, v) ∈ l := by
  induction l with
  | nil => simp [alookup] at h
  | cons p rest ih =>
    obtain ⟨k1, v1⟩ := p
    by_cases hk : k1 = k
    · subst hk
      simp only [alookup, if_true] at h
      simp [Option.some.inj h]
    · simp only [alookup, hk, if_false] at h
      exact List.mem_cons_of_mem _ (ih h)

theorem alookup_mem_keys {α : Type} {l : List (String × α)} {k : String} {v : α}
    (h : alookup l k = some v) : k ∈ l.map Prod.fst :=
  List.mem_map.mpr ⟨(k, v), alookup_mem h, rfl⟩

theorem aset_keys {α : Type} (l : List (String × α)) (k : String) (v : α) :
    (aset l k v).map Prod.fst = l.map Prod.fst := by
  induction l with
  | nil => simp [aset]
  | cons p rest ih =>
    obtain ⟨k1, v1⟩ := p
    by_cases hk : k1 = k
    · subst hk
      simpa [aset] using ih
    · simpa [aset, hk] using ih

theorem mem_aset {α : Type} {l : List (String × α)} {k : String} {v : α} {p : String × α}
    (h : p ∈ aset l k v) : p = (k, v) ∨ p ∈ l := by
  simp only [aset, List.mem_map] at h
  obtain ⟨q, hq, hpq⟩ := h
  by_cases hk : q.1 = k
  · left
    rw [if_pos hk] at hpq
    exact hpq.symm
  · right
    rw [if_neg hk] at hpq
    exact hpq ▸ hq

theorem alookup_cons {α : Type} (k1 : String) (v1 : α) (rest : List (String × α))
    (k : String) :
    alookup ((k1, v1) :: rest) k = if k1 = k then some v1 else alookup rest k := rfl

theorem aset_cons {α : Type} (k1 : String) (v1 : α) (rest : List (String × α))
    (k : String) (v : α) :
    aset ((k1, v1) :: rest) k v =
      (if k1 = k then (k, v) else (k1, v1)) :: aset rest k v := rfl

theorem alookup_aset_of_ne {α : Type} {l : List (String × α)} {k k2 : String} (v : α)
    (h : k2 ≠ k) : alookup (aset l k v) k2 = alookup l k2 := by
  induction l with
  | nil => rfl
  | cons p rest ih =>
    obtain ⟨k1, v1⟩ := p
    rw [aset_cons]
    by_cases hk : k1 = k
    · rw [if_pos hk, alookup_cons, alookup_cons, if_neg (Ne.symm h),
        if_neg (fun hh : k1 = k2 => (Ne.symm h) (hk ▸ hh))]
      exact ih
    · rw [if_neg hk, alookup_cons, alookup_cons]
      by_cases hk2 : k1 = k2
      · rw [if_pos hk2, if_pos hk2]
      · rw [if_neg hk2, if_neg hk2]
        exact ih

theorem alookup_aset_self {α : Type} {l : List (String × α)} {k : String} {v0 : α} (v : α)
    (h : alookup l k = some v0) : alookup (aset l k v) k = some v := by
  induction l with
  | nil => simp [alookup] at h
  | cons p rest ih =>
    obtain ⟨k1, v1⟩ := p
    rw [aset_cons]
    by_cases hk : k1 = k
    · rw [if_pos hk, alookup_cons, if_pos rfl]
    · rw [alookup_cons, if_neg hk] at h
      rw [if_neg hk, alookup_cons, if_neg hk]
      exact ih h

theorem aset_of_none {α : Type} {l : List (String × α)} {k : String} (v : α)
    (h : alookup l k = none) : aset l k v = l := by
  induction l with
  | nil => rfl
  | cons p rest ih =>
    obtain ⟨k1, v1⟩ := p
    rw [alookup_cons] at h
    by_cases hk : k1 = k
    · rw [if_pos hk] at h
      exact absurd h (by simp)
    · rw [if_neg hk] at h
      rw [aset_cons, if_neg hk, ih h]

theorem legalB_cons {st : SysState} {e : Ev} {evs : List Ev} :
    legalB st (e :: evs) = true ↔
      enabledB st e = true ∧ legalB (stepFn st e) evs = true := by
  simp [legalB, Bool.and_eq_true]

theorem enabledB_enq {st : SysState} {id : String} {body : GenerateRequestBody}
    (h : enabledB st (Ev.enq id body) = true) : id ∉ st.used_ids := by
  simpa [enabledB] using h

theorem enabledB_deq {st : SysState} {id : String}
    (h : enabledB st (Ev.deq id) = true) :
    st.worker = WorkerPhase.idle ∧ st.queue_order.head? = some id := by
  simpa [enabledB, Bool.and_eq_true] using h

theorem enabledB_fin {st : SysState} {id : String} {o : Except PyErr (List Nat)}
    (h : enabledB st (Ev.fin id o) = true) : st.worker = WorkerPhase.busy id := by
  simpa [enabledB] using h

theorem head_eq_cons {l : List String} {id : String} (h : l.head? = some id) :
    ∃ rest, l = id :: rest := by
  cases l with
  | nil => simp at h
  | cons a rest =>
    simp at h
    exact ⟨rest, by rw [h]⟩

theorem enq_fst_eq (st : SysState) (id : String) (body : GenerateRequestBody) :
    (enqueue_generation_request st id body).1 =
      { st with
          queue_items := st.queue_items ++ [(id, new_queue_item id body)]
          queue_order := st.queue_order ++ [id]
          used_ids := id :: st.used_ids } := rfl

theorem enq_snd_eq (st : SysState) (id : String) (body : GenerateRequestBody) :
    (enqueue_generation_request st id body).2 = new_queue_item id body := rfl

theorem queue_worker_dequeue_found {st : SysState} {nid : String} {rest : List String}
    {item : GenerationQueueItem} (horder : st.queue_order = nid :: rest)
    (hfound : alookup st.queue_items nid = some item) :
    queue_worker_dequeue st =
      { st with
          queue_order := rest
          queue_items := aset st.queue_items nid
            { item with status := Status.generating, error_message := none }
          worker := WorkerPhase.busy nid } := by
  simp only [queue_worker_dequeue, horder, hfound]

theorem queue_worker_finish_missing {st : SysState} {nid : String}
    (o : Except PyErr (List Nat)) (hmiss : alookup st.queue_items nid = none) :
    queue_worker_finish st nid o = { st with worker := WorkerPhase.idle } := by
  simp only [queue_worker_finish, hmiss]

theorem queue_worker_finish_err {st : SysState} {nid : String}
    {item : GenerationQueueItem} (e : PyErr)
    (hfound : alookup st.queue_items nid = some item) :
    queue_worker_finish st nid (Except.error e) =
      { st with
          queue_items := aset st.queue_items nid
            { item with
                status := Status.failed
                error_message := some "Audio generation failed"
                wav_bytes := none }
          worker := WorkerPhase.idle } := by
  simp only [queue_worker_finish, hfound]

theorem queue_worker_finish_ok {st : SysState} {nid : String}
    {item : GenerationQueueItem} (wav : List Nat)
    (hfound : alookup st.queue_items nid = some item) :
    queue_worker_finish st nid (Except.ok wav) =
      { st with
          queue_items := aset st.queue_items nid
            { item with
                status := Status.completed
                error_message := none
                wav_bytes := some wav }
          worker := WorkerPhase.idle } := by
  simp only [queue_worker_finish, hfound]

theorem inv_initState : Inv initState := by
  refine ⟨?_, ?_, ?_, ?_, ?_, ?_, ?_, ?_, ?_, ?_, ?_, ?_, ?_⟩ <;>
    simp [initState, alookup]

theorem inv_enq {st : SysState} {id : String} {body : GenerateRequestBody}
    (h : Inv st) (hfresh : id ∉ st.used_ids) :
    Inv (enqueue_generation_request st id body).1 := by
  have hidkeys : id ∉ st.queue_items.map Prod.fst := by
    intro hmem
    obtain ⟨p, hp, hpe⟩ := List.mem_map.mp hmem
    exact hfresh (hpe ▸ h.keys_used p hp)
  have hlooknone : alookup st.queue_items id = none := alookup_eq_none_iff.mpr hidkeys
  rw [enq_fst_eq]
  refine ⟨?_, ?_, ?_, ?_, ?_, ?_, ?_, ?_, ?_, ?_, ?_, ?_, ?_⟩
  · simp only [List.map_append, List.map_cons, List.map_nil]
    rw [List.nodup_append]
    refine ⟨h.keys_nodup, List.nodup_singleton id, ?_⟩
    intro a ha hb
    simp only [List.mem_singleton] at hb
    exact hidkeys (hb ▸ ha)
  · intro p hp
    rcases List.mem_append.mp hp with hp1 | hp2
    · exact h.keys_id p hp1
    · simp only [List.mem_singleton] at hp2
      subst hp2
      rfl
  · intro p hp
    rcases List.mem_append.mp hp with hp1 | hp2
    · exact List.mem_cons_of_mem _ (h.keys_used p hp1)
    · simp only [List.mem_singleton] at hp2
      subst hp2
      exact List.mem_cons_self _ _
  · intro i hi
    rcases List.mem_append.mp hi with hi1 | hi2
    · exact List.mem_cons_of_mem _ (h.order_used i hi1)
    · simp only [List.mem_singleton] at hi2
      subst hi2
      exact List.mem_cons_self _ _
  · intro i hi
    rcases List.mem_append.mp hi with hi1 | hi2
    · obtain ⟨it, hit⟩ := h.order_keys i hi1
      exact ⟨it, alookup_append_of_some _ hit⟩
    · simp only [List.mem_singleton] at hi2
      subst hi2
      exact ⟨new_queue_item i body, by
        rw [alookup_append_of_none _ hlooknone, alookup_cons, if_pos rfl]⟩
  · rw [List.nodup_append]
    refine ⟨h.order_nodup, List.nodup_singleton id, ?_⟩
    intro a ha hb
    simp only [List.mem_singleton] at hb
    exact hfresh (hb ▸ h.order_used a ha)
  · intro b hb
    exact List.mem_cons_of_mem _ (h.busy_used b hb)
  · intro b hb hbmem
    rcases List.mem_append.mp hbmem with h1 | h2
    · exact h.busy_not_in_order b hb h1
    · simp only [List.mem_singleton] at h2
      exact hfresh (h2 ▸ h.busy_used b hb)
  · intro b it hb hit
    have hbne : b ≠ id := fun hbe => hfresh (hbe ▸ h.busy_used b hb)
    rcases hx : alookup st.queue_items b with _ | it0
    · rw [alookup_append_of_none _ hx, alookup_cons, if_neg (Ne.symm hbne)] at hit
      simp [alookup] at hit
    · rw [alookup_append_of_some _ hx] at hit
      exact h.busy_status b it hb (hx.trans (congrArg some (Option.some.inj hit)))
  · intro i it hit hgen
    rcases hx : alookup st.queue_items i with _ | it0
    · rw [alookup_append_of_none _ hx, alookup_cons] at hit
      by_cases hie : id = i
      · rw [if_pos hie] at hit
        have : it = new_queue_item id body := (Option.some.inj hit).symm
        rw [this] at hgen
        exact absurd hgen (by simp [new_queue_item])
      · rw [if_neg hie] at hit
        simp [alookup] at hit
    · rw [alookup_append_of_some _ hx] at hit
      have : it0 = it := Option.some.inj hit
      exact h.gen_busy i it (this ▸ hx) hgen
  · intro i hi it hit
    rcases List.mem_append.mp hi with hi1 | hi2
    · obtain ⟨it0, hit0⟩ := h.order_keys i hi1
      rw [alookup_append_of_some _ hit0] at hit
      exact h.order_queued i hi1 it (hit0.trans (congrArg some (Option.some.inj hit)))
    · simp only [List.mem_singleton] at hi2
      subst hi2
      rw [alookup_append_of_none _ hlooknone, alookup_cons, if_pos rfl] at hit
      rw [← Option.some.inj hit]
      rfl
  · intro p hp
    rcases List.mem_append.mp hp with hp1 | hp2
    · exact h.wav_iff p hp1
    · simp only [List.mem_singleton] at hp2
      subst hp2
      simp [new_queue_item]
  · intro p hp
    rcases List.mem_append.mp hp with hp1 | hp2
    · exact h.err_iff p hp1
    · simp only [List.mem_singleton] at hp2
      subst hp2
      simp [new_queue_item]

theorem inv_deq {st : SysState} {id : String}
    (h : Inv st) (he : enabledB st (Ev.deq id) = true) :
    Inv (queue_worker_dequeue st) := by
  obtain ⟨hidle, hhead⟩ := enabledB_deq he
  obtain ⟨rest, horder⟩ := head_eq_cons hhead
  have hmemhead : id ∈ st.queue_order := by
    rw [horder]
    exact List.mem_cons_self _ _
  obtain ⟨item, hfound⟩ := h.order_keys id hmemhead
  have hqueued : item.status = Status.queued := h.order_queued id hmemhead item hfound
  have hnodup : (id :: rest).Nodup := horder ▸ h.order_nodup
  have hnotin : id ∉ rest := (List.nodup_cons.mp hnodup).1
  have hrestnodup : rest.Nodup := (List.nodup_cons.mp hnodup).2
  have hwavnone : item.wav_bytes = none := by
    rcases hxx : item.wav_bytes with _ | b
    · rfl
    · have hc := (h.wav_iff (id, item) (alookup_mem hfound)).mp (by rw [hxx]; rfl)
      rw [hqueued] at hc
      exact absurd hc (by decide)
  rw [queue_worker_dequeue_found horder hfound]
  refine ⟨?_, ?_, ?_, ?_, ?_, ?_, ?_, ?_, ?_, ?_, ?_, ?_, ?_⟩
  · rw [aset_keys]
    exact h.keys_nodup
  · intro p hp
    rcases mem_aset hp with hpe | hpi
    · subst hpe
      exact h.keys_id (id, item) (alookup_mem hfound)
    · exact h.keys_id p hpi
  · intro p hp
    rcases mem_aset hp with hpe | hpi
    · subst hpe
      exact h.keys_used (id, item) (alookup_mem hfound)
    · exact h.keys_used p hpi
  · intro i hi
    exact h.order_used i (horder ▸ List.mem_cons_of_mem _ hi)
  · intro i hi
    have hine : i ≠ id := fun hii => hnotin (hii ▸ hi)
    obtain ⟨it, hit⟩ := h.order_keys i (horder ▸ List.mem_cons_of_mem _ hi)
    exact ⟨it, by rw [alookup_aset_of_ne _ hine]; exact hit⟩
  · exact hrestnodup
  · intro b hb
    have hbe : id = b := WorkerPhase.busy.inj hb
    exact hbe ▸ h.order_used id hmemhead
  · intro b hb
    have hbe : id = b := WorkerPhase.busy.inj hb
    exact hbe ▸ hnotin
  · intro b it hb hit
    have hbe : id = b := WorkerPhase.busy.inj hb
    rw [← hbe] at hit
    rw [alookup_aset_self _ hfound] at hit
    rw [← Option.some.inj hit]
  · intro i it hit hgen
    by_cases hie : i = id
    · rw [hie]
    · rw [alookup_aset_of_ne _ hie] at hit
      have := h.gen_busy i it hit hgen
      rw [hidle] at this
      exact WorkerPhase.noConfusion this
  · intro i hi it hit
    have hine : i ≠ id := fun hii => hnotin (hii ▸ hi)
    rw [alookup_aset_of_ne _ hine] at hit
    exact h.order_queued i (horder ▸ List.mem_cons_of_mem _ hi) it hit
  · intro p hp
    rcases mem_aset hp with hpe | hpi
    · subst hpe
      constructor
      · intro hx
        have hx2 : item.wav_bytes.isSome = true := hx
        rw [hwavnone] at hx2
        exact Bool.noConfusion hx2
      · intro hx
        exact Status.noConfusion hx
    · exact h.wav_iff p hpi
  · intro p hp
    rcases mem_aset hp with hpe | hpi
    · subst hpe
      constructor
      · intro hx
        exact Bool.noConfusion hx
      · intro hx
        exact Status.noConfusion hx
    · exact h.err_iff p hpi

theorem inv_fin {st : SysState} {nid : String} {o : Except PyErr (List Nat)}
    (h : Inv st) (he : enabledB st (Ev.fin nid o) = true) :
    Inv (queue_worker_finish st nid o) := by
  have hbusy := enabledB_fin he
  have hnidorder : nid ∉ st.queue_order := h.busy_not_in_order nid hbusy
  rcases hfound : alookup st.queue_items nid with _ | item
  · rw [queue_worker_finish_missing o hfound]
    refine ⟨h.keys_nodup, h.keys_id, h.keys_used, h.order_used, h.order_keys,
      h.order_nodup, ?_, ?_, ?_, ?_, h.order_queued, h.wav_iff, h.err_iff⟩
    · intro b hb
      exact WorkerPhase.noConfusion hb
    · intro b hb
      exact WorkerPhase.noConfusion hb
    · intro b it hb
      exact WorkerPhase.noConfusion hb
    · intro i it hit hgen
      exfalso
      have hbi := h.gen_busy i it hit hgen
      have hin : nid = i := WorkerPhase.busy.inj (hbusy.symm.trans hbi)
      rw [← hin, hfound] at hit
      exact Option.noConfusion hit
  · have hmem := alookup_mem hfound
    cases o with
    | error e =>
      rw [queue_worker_finish_err e hfound]
      refine ⟨?_, ?_, ?_, ?_, ?_, ?_, ?_, ?_, ?_, ?_, ?_, ?_, ?_⟩
      · rw [aset_keys]
        exact h.keys_nodup
      · intro p hp
        rcases mem_aset hp with hpe | hpi
        · subst hpe
          exact h.keys_id (nid, item) hmem
        · exact h.keys_id p hpi
      · intro p hp
        rcases mem_aset hp with hpe | hpi
        · subst hpe
          exact h.keys_used (nid, item) hmem
        · exact h.keys_used p hpi
      · exact h.order_used
      · intro i hi
        have hine : i ≠ nid := fun hii => hnidorder (hii ▸ hi)
        obtain ⟨it, hit⟩ := h.order_keys i hi
        exact ⟨it, by rw [alookup_aset_of_ne _ hine]; exact hit⟩
      · exact h.order_nodup
      · intro b hb
        exact WorkerPhase.noConfusion hb
      · intro b hb
        exact WorkerPhase.noConfusion hb
      · intro b it hb
        exact WorkerPhase.noConfusion hb
      · intro i it hit hgen
        exfalso
        by_cases hie : i = nid
        · subst hie
          rw [alookup_aset_self _ hfound] at hit
          rw [← Option.some.inj hit] at hgen
          exact Status.noConfusion hgen
        · rw [alookup_aset_of_ne _ hie] at hit
          have hbi := h.gen_busy i it hit hgen
          exact hie (WorkerPhase.busy.inj (hbi.symm.trans hbusy))
      · intro i hi it hit
        have hine : i ≠ nid := fun hii => hnidorder (hii ▸ hi)
        rw [alookup_aset_of_ne _ hine] at hit
        exact h.order_queued i hi it hit
      · intro p hp
        rcases mem_aset hp with hpe | hpi
        · subst hpe
          constructor
          · intro hx
            exact Bool.noConfusion hx
          · intro hx
            exact Status.noConfusion hx
        · exact h.wav_iff p hpi
      · intro p hp
        rcases mem_aset hp with hpe | hpi
        · subst hpe
          exact ⟨fun _ => rfl, fun _ => rfl⟩
        · exact h.err_iff p hpi
    | ok wav =>
      rw [queue_worker_finish_ok wav hfound]
      refine ⟨?_, ?_, ?_, ?_, ?_, ?_, ?_, ?_, ?_, ?_, ?_, ?_, ?_⟩
      · rw [aset_keys]
        exact h.keys_nodup
      · intro p hp
        rcases mem_aset hp with hpe | hpi
        · subst hpe
          exact h.keys_id (nid, item) hmem
        · exact h.keys_id p hpi
      · intro p hp
        rcases mem_aset hp with hpe | hpi
        · subst hpe
          exact h.keys_used (nid, item) hmem
        · exact h.keys_used p hpi
      · exact h.order_used
      · intro i hi
        have hine : i ≠ nid := fun hii => hnidorder (hii ▸ hi)
        obtain ⟨it, hit⟩ := h.order_keys i hi
        exact ⟨it, by rw [alookup_aset_of_ne _ hine]; exact hit⟩
      · exact h.order_nodup
      · intro b hb
        exact WorkerPhase.noConfusion hb
      · intro b hb
        exact WorkerPhase.noConfusion hb
      · intro b it hb
        exact WorkerPhase.noConfusion hb
      · intro i it hit hgen
        exfalso
        by_cases hie : i = nid
        · subst hie
          rw [alookup_aset_self _ hfound] at hit
          rw [← Option.some.inj hit] at hgen
          exact Status.noConfusion hgen
        · rw [alookup_aset_of_ne _ hie] at hit
          have hbi := h.gen_busy i it hit hgen
          exact hie (WorkerPhase.busy.inj (hbi.symm.trans hbusy))
      · intro i hi it hit
        have hine : i ≠ nid := fun hii => hnidorder (hii ▸ hi)
        rw [alookup_aset_of_ne _ hine] at hit
        exact h.order_queued i hi it hit
      · intro p hp
        rcases mem_aset hp with hpe | hpi
        · subst hpe
          exact ⟨fun _ => rfl, fun _ => rfl⟩
        · exact h.wav_iff p hpi
      · intro p hp
        rcases mem_aset hp with hpe | hpi
        · subst hpe
          constructor
          · intro hx
            exact Bool.noConfusion hx
          · intro hx
            exact Status.noConfusion hx
        · exact h.err_iff p hpi

theorem inv_reset {st : SysState} (h : Inv st) :
    Inv (reset_generation_queue_for_tests st) := by
  refine ⟨by simp [reset_generation_queue_for_tests], by simp [reset_generation_queue_for_tests],
    by simp [reset_generation_queue_for_tests], by simp [reset_generation_queue_for_tests],
    by simp [reset_generation_queue_for_tests], by simp [reset_generation_queue_for_tests],
    h.busy_used, by simp [reset_generation_queue_for_tests], ?_, ?_,
    by simp [reset_generation_queue_for_tests], by simp [reset_generation_queue_for_tests],
    by simp [reset_generation_queue_for_tests]⟩
  · intro b it _ hit
    simp [reset_generation_queue_for_tests, alookup] at hit
  · intro i it hit
    simp [reset_generation_queue_for_tests, alookup] at hit

theorem inv_step {st : SysState} {e : Ev} (h : Inv st) (he : enabledB st e = true) :
    Inv (stepFn st e) := by
  cases e with
  | enq id body => exact inv_enq h (enabledB_enq he)
  | deq id => exact inv_deq h he
  | fin id o => exact inv_fin h he
  | reset => exact inv_reset h

theorem inv_runEvents : ∀ (evs : List Ev) (st : SysState),
    Inv st → legalB st evs = true → Inv (runEvents st evs)
  | [], _, h, _ => h
  | e :: evs, st, h, hl => by
    obtain ⟨he, hrest⟩ := legalB_cons.mp hl
    exact inv_runEvents evs (stepFn st e) (inv_step h he) hrest

theorem inv_reachable {st : SysState} (h : Reachable st) : Inv st := by
  obtain ⟨evs, hlegal, hst⟩ := h
  rw [hst]
  exact inv_runEvents evs initState inv_initState hlegal

theorem statusOf_some_iff {st : SysState} {i : String} {s : Status} :
    statusOf st i = some s ↔
      ∃ it, alookup st.queue_items i = some it ∧ it.status = s := by
  simp [statusOf, Option.map_eq_some']

theorem queue_worker_dequeue_used (st : SysState) :
    (queue_worker_dequeue st).used_ids = st.used_ids := by
  rcases hq : st.queue_order with _ | ⟨nid, rest⟩
  · simp [queue_worker_dequeue, hq]
  · rcases hl : alookup st.queue_items nid with _ | item
    · simp [queue_worker_dequeue, hq, hl]
    · simp [queue_worker_dequeue, hq, hl]

theorem queue_worker_finish_used (st : SysState) (nid : String)
    (o : Except PyErr (List Nat)) :
    (queue_worker_finish st nid o).used_ids = st.used_ids := by
  rcases hl : alookup st.queue_items nid with _ | item
  · simp [queue_worker_finish, hl]
  · cases o <;> simp [queue_worker_finish, hl]

theorem stepFn_used_mono {st : SysState} {e : Ev} :
    st.used_ids ⊆ (stepFn st e).used_ids := by
  cases e with
  | enq id body => exact fun x hx => List.mem_cons_of_mem _ hx
  | deq id =>
    intro x hx
    show x ∈ (queue_worker_dequeue st).used_ids
    rw [queue_worker_dequeue_used]
    exact hx
  | fin id o =>
    intro x hx
    show x ∈ (queue_worker_finish st id o).used_ids
    rw [queue_worker_finish_used]
    exact hx
  | reset => exact fun x hx => hx

theorem alookup_stepFn_none {st : SysState} {e : Ev} {i : String}
    (he : enabledB st e = true) (hn : alookup st.queue_items i = none)
    (hu : i ∈ st.used_ids) :
    alookup (stepFn st e).queue_items i = none := by
  cases e with
  | enq id body =>
    have hfresh : id ∉ st.used_ids := enabledB_enq he
    have hne : id ≠ i := fun hh => hfresh (hh ▸ hu)
    show alookup (st.queue_items ++ [(id, new_queue_item id body)]) i = none
    rw [alookup_append_of_none _ hn, alookup_cons, if_neg hne]
    rfl
  | deq id =>
    show alookup (queue_worker_dequeue st).queue_items i = none
    rcases hq : st.queue_order with _ | ⟨nid, rest⟩
    · simp [queue_worker_dequeue, hq, hn]
    · rcases hl : alookup st.queue_items nid with _ | item
      · simp [queue_worker_dequeue, hq, hl, hn]
      · have hne : i ≠ nid := fun hh => by
          rw [hh, hl] at hn
          exact Option.noConfusion hn
        rw [queue_worker_dequeue_found hq hl]
        show alookup (aset st.queue_items nid _) i = none
        rw [alookup_aset_of_ne _ hne]
        exact hn
  | fin nid o =>
    show alookup (queue_worker_finish st nid o).queue_items i = none
    rcases hl : alookup st.queue_items nid with _ | item
    · rw [queue_worker_finish_missing o hl]
      exact hn
    · have hne : i ≠ nid := fun hh => by
        rw [hh, hl] at hn
        exact Option.noConfusion hn
      cases o with
      | error e2 =>
        rw [queue_worker_finish_err e2 hl]
        show alookup (aset st.queue_items nid _) i = none
        rw [alookup_aset_of_ne _ hne]
        exact hn
      | ok wav =>
        rw [queue_worker_finish_ok wav hl]
        show alookup (aset st.queue_items nid _) i = none
        rw [alookup_aset_of_ne _ hne]
        exact hn
  | reset => rfl

theorem statusOf_stepFn_none {st : SysState} {e : Ev} {i : String}
    (he : enabledB st e = true) (hn : statusOf st i = none)
    (hu : i ∈ st.used_ids) :
    statusOf (stepFn st e) i = none := by
  have hn2 : alookup st.queue_items i = none := by
    rcases hx : alookup st.queue_items i with _ | it
    · rfl
    · rw [statusOf, hx] at hn
      exact Option.noConfusion hn
  rw [statusOf, alookup_stepFn_none he hn2 hu]
  rfl

theorem statusOf_stepFn_new {st : SysState} {e : Ev} {i : String} {s2 : Status}
    (hn : statusOf st i = none) (h2 : statusOf (stepFn st e) i = some s2) :
    s2 = Status.queued := by
  have hn2 : alookup st.queue_items i = none := by
    rcases hx : alookup st.queue_items i with _ | it
    · rfl
    · rw [statusOf, hx] at hn
      exact Option.noConfusion hn
  obtain ⟨it2, hit2, hs2⟩ := statusOf_some_iff.mp h2
  cases e with
  | enq id body =>
    have hlook : alookup (stepFn st (Ev.enq id body)).queue_items i =
        alookup [(id, new_queue_item id body)] i := by
      show alookup (st.queue_items ++ [(id, new_queue_item id body)]) i = _
      rw [alookup_append_of_none _ hn2]
    rw [hlook, alookup_cons] at hit2
    by_cases hie : id = i
    · rw [if_pos hie] at hit2
      rw [← hs2, ← Option.some.inj hit2]
      rfl
    · rw [if_neg hie] at hit2
      exact Option.noConfusion hit2
  | deq id =>
    exfalso
    rcases hq : st.queue_order with _ | ⟨nid, rest⟩
    · have : alookup (stepFn st (Ev.deq id)).queue_items i = none := by
        show alookup (queue_worker_dequeue st).queue_items i = none
        simp [queue_worker_dequeue, hq, hn2]
      rw [this] at hit2
      exact Option.noConfusion hit2
    · rcases hl : alookup st.queue_items nid with _ | item
      · have : alookup (stepFn st (Ev.deq id)).queue_items i = none := by
          show alookup (queue_worker_dequeue st).queue_items i = none
          simp [queue_worker_dequeue, hq, hl, hn2]
        rw [this] at hit2
        exact Option.noConfusion hit2
      · have hne : i ≠ nid := fun hh => by
          rw [hh, hl] at hn2
          exact Option.noConfusion hn2
        have : alookup (stepFn st (Ev.deq id)).queue_items i = none := by
          show alookup (queue_worker_dequeue st).queue_items i = none
          rw [queue_worker_dequeue_found hq hl]
          show alookup (aset st.queue_items nid _) i = none
          rw [alookup_aset_of_ne _ hne]
          exact hn2
        rw [this] at hit2
        exact Option.noConfusion hit2
  | fin nid o =>
    exfalso
    rcases hl : alookup st.queue_items nid with _ | item
    · have : alookup (stepFn st (Ev.fin nid o)).queue_items i = none := by
        show alookup (queue_worker_finish st nid o).queue_items i = none
        rw [queue_worker_finish_missing o hl]
        exact hn2
      rw [this] at hit2
      exact Option.noConfusion hit2
    · have hne : i ≠ nid := fun hh => by
        rw [hh, hl] at hn2
        exact Option.noConfusion hn2
      have : alookup (stepFn st (Ev.fin nid o)).queue_items i = none := by
        show alookup (queue_worker_finish st nid o).queue_items i = none
        cases o with
        | error e2 =>
          rw [queue_worker_finish_err e2 hl]
          show alookup (aset st.queue_items nid _) i = none
          rw [alookup_aset_of_ne _ hne]
          exact hn2
        | ok wav =>
          rw [queue_worker_finish_ok wav hl]
          show alookup (aset st.queue_items nid _) i = none
          rw [alookup_aset_of_ne _ hne]
          exact hn2
      rw [this] at hit2
      exact Option.noConfusion hit2
  | reset =>
    exfalso
    have : alookup (stepFn st Ev.reset).queue_items i = none := rfl
    rw [this] at hit2
    exact Option.noConfusion hit2

theorem statusOf_step_forward {st : SysState} {e : Ev} {i : String} {s s2 : Status}
    (hinv : Inv st) (he : enabledB st e = true)
    (h1 : statusOf st i = some s) (h2 : statusOf (stepFn st e) i = some s2) :
    s2 = s ∨ (s = Status.queued ∧ s2 = Status.generating) ∨
      (s = Status.generating ∧ (s2 = Status.completed ∨ s2 = Status.failed)) := by
  obtain ⟨it1, hit1, hs1⟩ := statusOf_some_iff.mp h1
  obtain ⟨it2, hit2, hs2⟩ := statusOf_some_iff.mp h2
  cases e with
  | enq id body =>
    left
    have hlook : alookup (stepFn st (Ev.enq id body)).queue_items i = some it1 :=
      alookup_append_of_some _ hit1
    rw [← hs1, ← hs2]
    exact congrArg GenerationQueueItem.status
      (Option.some.inj (hlook.symm.trans hit2)).symm
  | deq id =>
    obtain ⟨hidle, hhead⟩ := enabledB_deq he
    obtain ⟨rest, horder⟩ := head_eq_cons hhead
    have hmemhead : id ∈ st.queue_order := by
      rw [horder]
      exact List.mem_cons_self _ _
    obtain ⟨item, hfound⟩ := hinv.order_keys id hmemhead
    have hstep := queue_worker_dequeue_found horder hfound
    by_cases hie : i = id
    · subst hie
      right
      left
      have h11 : it1 = item := Option.some.inj (hit1.symm.trans hfound)
      have hq : item.status = Status.queued := hinv.order_queued i hmemhead item hfound
      have h22 : alookup (stepFn st (Ev.deq i)).queue_items i =
          some { item with status := Status.generating, error_message := none } := by
        show alookup (queue_worker_dequeue st).queue_items i = _
        rw [hstep]
        exact alookup_aset_self _ hfound
      refine ⟨?_, ?_⟩
      · rw [← hs1, h11]
        exact hq
      · rw [← hs2, Option.some.inj (hit2.symm.trans h22)]
    · left
      have hlook : alookup (stepFn st (Ev.deq id)).queue_items i =
          alookup st.queue_items i := by
        show alookup (queue_worker_dequeue st).queue_items i = _
        rw [hstep]
        exact alookup_aset_of_ne _ hie
      rw [hlook, hit1] at hit2
      rw [← hs1, ← hs2, Option.some.inj hit2]
  | fin nid o =>
    have hbusy := enabledB_fin he
    rcases hfound : alookup st.queue_items nid with _ | item
    · left
      have hlook : alookup (stepFn st (Ev.fin nid o)).queue_items i =
          alookup st.queue_items i := by
        show alookup (queue_worker_finish st nid o).queue_items i = _
        rw [queue_worker_finish_missing o hfound]
      rw [hlook, hit1] at hit2
      rw [← hs1, ← hs2, Option.some.inj hit2]
    · by_cases hie : i = nid
      · subst hie
        right
        right
        have h11 : it1 = item := Option.some.inj (hit1.symm.trans hfound)
        have hgen : item.status = Status.generating := hinv.busy_status i item hbusy hfound
        refine ⟨by rw [← hs1, h11]; exact hgen, ?_⟩
        cases o with
        | ok wav =>
          left
          have h22 : alookup (stepFn st (Ev.fin i (Except.ok wav))).queue_items i =
              some { item with
                status := Status.completed, error_message := none,
                wav_bytes := some wav } := by
            show alookup (queue_worker_finish st i (Except.ok wav)).queue_items i = _
            rw [queue_worker_finish_ok wav hfound]
            exact alookup_aset_self _ hfound
          rw [← hs2, Option.some.inj (hit2.symm.trans h22)]
        | error e2 =>
          right
          have h22 : alookup (stepFn st (Ev.fin i (Except.error e2))).queue_items i =
              some { item with
                status := Status.failed,
                error_message := some "Audio generation failed",
                wav_bytes := none } := by
            show alookup (queue_worker_finish st i (Except.error e2)).queue_items i = _
            rw [queue_worker_finish_err e2 hfound]
            exact alookup_aset_self _ hfound
          rw [← hs2, Option.some.inj (hit2.symm.trans h22)]
      · left
        have hlook : alookup (stepFn st (Ev.fin nid o)).queue_items i =
            alookup st.queue_items i := by
          show alookup (queue_worker_finish st nid o).queue_items i = _
          cases o with
          | error e2 =>
            rw [queue_worker_finish_err e2 hfound]
            exact alookup_aset_of_ne _ hie
          | ok wav =>
            rw [queue_worker_finish_ok wav hfound]
            exact alookup_aset_of_ne _ hie
        rw [hlook, hit1] at hit2
        rw [← hs1, ← hs2, Option.some.inj hit2]
  | reset =>
    exfalso
    have : alookup (stepFn st Ev.reset).queue_items i = none := rfl
    rw [this] at hit2
    exact Option.noConfusion hit2

theorem statusTrace_nil_some {st : SysState} {i : String} {s : Status}
    (h : statusOf st i = some s) : statusTrace i st [] = [s] := by
  simp [statusTrace, h]

theorem statusTrace_cons_some {st : SysState} {i : String} {s : Status}
    {e : Ev} {evs : List Ev} (h : statusOf st i = some s) :
    statusTrace i st (e :: evs) = s :: statusTrace i (stepFn st e) evs := by
  simp [statusTrace, h]

theorem statusTrace_cons_none {st : SysState} {i : String}
    {e : Ev} {evs : List Ev} (h : statusOf st i = none) :
    statusTrace i st (e :: evs) = statusTrace i (stepFn st e) evs := by
  simp [statusTrace, h]

theorem statusTrace_head (evs : List Ev) {st : SysState} {i : String} {s : Status}
    (h : statusOf st i = some s) : ∃ tail, statusTrace i st evs = s :: tail := by
  cases evs with
  | nil => exact ⟨[], statusTrace_nil_some h⟩
  | cons e evs => exact ⟨_, statusTrace_cons_some h⟩

theorem statusTrace_vanished : ∀ (evs : List Ev) (st : SysState) (i : String),
    legalB st evs = true → statusOf st i = none → i ∈ st.used_ids →
    statusTrace i st evs = []
  | [], st, i, _, hn, _ => by simp [statusTrace, hn]
  | e :: evs, st, i, hl, hn, hu => by
    obtain ⟨he, hrest⟩ := legalB_cons.mp hl
    rw [statusTrace_cons_none hn]
    exact statusTrace_vanished evs (stepFn st e) i hrest
      (statusOf_stepFn_none he hn hu) (stepFn_used_mono hu)

theorem statusTrace_from_some : ∀ (evs : List Ev) (st : SysState) (i : String) (s : Status),
    Inv st → legalB st evs = true → statusOf st i = some s →
    (dedupAdj (statusTrace i st evs) <+: canonTo Status.completed s ∨
     dedupAdj (statusTrace i st evs) <+: canonTo Status.failed s)
  | [], st, i, s, _, _, h1 => by
    rw [statusTrace_nil_some h1]
    left
    cases s with
    | queued => exact ⟨[Status.generating, Status.completed], rfl⟩
    | generating => exact ⟨[Status.completed], rfl⟩
    | completed => exact ⟨[], rfl⟩
    | failed => exact ⟨[], rfl⟩
  | e :: evs, st, i, s, hinv, hl, h1 => by
    obtain ⟨he, hrest⟩ := legalB_cons.mp hl
    have hinv2 : Inv (stepFn st e) := inv_step hinv he
    rw [statusTrace_cons_some h1]
    rcases h2 : statusOf (stepFn st e) i with _ | s2
    · have hused2 : i ∈ (stepFn st e).used_ids := by
        obtain ⟨it1, hit1, _⟩ := statusOf_some_iff.mp h1
        exact stepFn_used_mono (hinv.keys_used (i, it1) (alookup_mem hit1))
      rw [statusTrace_vanished evs (stepFn st e) i hrest h2 hused2]
      left
      cases s with
      | queued => exact ⟨[Status.generating, Status.completed], rfl⟩
      | generating => exact ⟨[Status.completed], rfl⟩
      | completed => exact ⟨[], rfl⟩
      | failed => exact ⟨[], rfl⟩
    · obtain ⟨tail, htail⟩ := statusTrace_head evs h2
      have hih := statusTrace_from_some evs (stepFn st e) i s2 hinv2 hrest h2
      rw [htail]
      rcases statusOf_step_forward hinv he h1 h2 with heq | ⟨hsq, hsg⟩ | ⟨hsg, hterm⟩
      · subst heq
        rw [htail] at hih
        have : dedupAdj (s2 :: s2 :: tail) = dedupAdj (s2 :: tail) := by
          rw [dedupAdj, if_pos rfl]
        rw [this]
        exact hih
      · subst hsq
        subst hsg
        rw [htail] at hih
        have hne : Status.queued ≠ Status.generating := by decide
        have : dedupAdj (Status.queued :: Status.generating :: tail) =
            Status.queued :: dedupAdj (Status.generating :: tail) := by
          rw [dedupAdj, if_neg hne]
        rw [this]
        rcases hih with hihc | hihf
        · left
          exact (List.cons_prefix_cons).mpr ⟨rfl, hihc⟩
        · right
          exact (List.cons_prefix_cons).mpr ⟨rfl, hihf⟩
      · subst hsg
        rw [htail] at hih
        rcases hterm with h2c | h2f
        · subst h2c
          left
          have hne : Status.generating ≠ Status.completed := by decide
          have : dedupAdj (Status.generating :: Status.completed :: tail) =
              Status.generating :: dedupAdj (Status.completed :: tail) := by
            rw [dedupAdj, if_neg hne]
          rw [this]
          rcases hih with hihc | hihf
          · exact (List.cons_prefix_cons).mpr ⟨rfl, hihc⟩
          · exact (List.cons_prefix_cons).mpr ⟨rfl, hihf⟩
        · subst h2f
          right
          have hne : Status.generating ≠ Status.failed := by decide
          have : dedupAdj (Status.generating :: Status.failed :: tail) =
              Status.generating :: dedupAdj (Status.failed :: tail) := by
            rw [dedupAdj, if_neg hne]
          rw [this]
          rcases hih with hihc | hihf
          · exact (List.cons_prefix_cons).mpr ⟨rfl, hihc⟩
          · exact (List.cons_prefix_cons).mpr ⟨rfl, hihf⟩

theorem statusTrace_from_none : ∀ (evs : List Ev) (st : SysState) (i : String),
    Inv st → legalB st evs = true → statusOf st i = none →
    (dedupAdj (statusTrace i st evs) <+:
        [Status.queued, Status.generating, Status.completed] ∨
     dedupAdj (statusTrace i st evs) <+:
        [Status.queued, Status.generating, Status.failed])
  | [], st, i, _, _, hn => by
    rw [show statusTrace i st [] = [] by simp [statusTrace, hn]]
    exact Or.inl ⟨_, rfl⟩
  | e :: evs, st, i, hinv, hl, hn => by
    obtain ⟨he, hrest⟩ := legalB_cons.mp hl
    have hinv2 : Inv (stepFn st e) := inv_step hinv he
    rw [statusTrace_cons_none hn]
    rcases h2 : statusOf (stepFn st e) i with _ | s2
    · exact statusTrace_from_none evs (stepFn st e) i hinv2 hrest h2
    · have hq : s2 = Status.queued := statusOf_stepFn_new hn h2
      subst hq
      exact statusTrace_from_some evs (stepFn st e) i Status.queued hinv2 hrest h2

theorem queue_worker_finish_order (st : SysState) (nid : String)
    (o : Except PyErr (List Nat)) :
    (queue_worker_finish st nid o).queue_order = st.queue_order := by
  rcases hl : alookup st.queue_items nid with _ | item
  · simp [queue_worker_finish, hl]
  · cases o <;> simp [queue_worker_finish, hl]

theorem queue_worker_finish_worker (st : SysState) (nid : String)
    (o : Except PyErr (List Nat)) :
    (queue_worker_finish st nid o).worker = WorkerPhase.idle := rfl

theorem statusOf_finish_ok_self {st : SysState} {nid : String}
    {item : GenerationQueueItem} (wav : List Nat)
    (hfound : alookup st.queue_items nid = some item) :
    statusOf (queue_worker_finish st nid (Except.ok wav)) nid =
      some Status.completed := by
  rw [statusOf, queue_worker_finish_ok wav hfound]
  show (alookup (aset st.queue_items nid _) nid).map _ = _
  rw [alookup_aset_self _ hfound]
  rfl

theorem statusOf_finish_err_self {st : SysState} {nid : String}
    {item : GenerationQueueItem} (e : PyErr)
    (hfound : alookup st.queue_items nid = some item) :
    statusOf (queue_worker_finish st nid (Except.error e)) nid =
      some Status.failed := by
  rw [statusOf, queue_worker_finish_err e hfound]
  show (alookup (aset st.queue_items nid _) nid).map _ = _
  rw [alookup_aset_self _ hfound]
  rfl

theorem errorMessageOf_finish_err_self {st : SysState} {nid : String}
    {item : GenerationQueueItem} (e : PyErr)
    (hfound : alookup st.queue_items nid = some item) :
    errorMessageOf (queue_worker_finish st nid (Except.error e)) nid =
      some "Audio generation failed" := by
  rw [errorMessageOf, queue_worker_finish_err e hfound]
  show (alookup (aset st.queue_items nid _) nid).bind _ = _
  rw [alookup_aset_self _ hfound]
  rfl

theorem worker_alternation : ∀ (evs : List Ev) (st : SysState),
    Inv st → legalB st evs = true → AltFrom st.worker (workerEvsOnly evs)
  | [], _, _, _ => AltFrom.nil _
  | e :: evs, st, hinv, hl => by
    obtain ⟨he, hrest⟩ := legalB_cons.mp hl
    have hinv2 : Inv (stepFn st e) := inv_step hinv he
    have hih := worker_alternation evs (stepFn st e) hinv2 hrest
    cases e with
    | enq id body =>
      show AltFrom st.worker (workerEvsOnly evs)
      exact hih
    | reset =>
      show AltFrom st.worker (workerEvsOnly evs)
      exact hih
    | deq id =>
      obtain ⟨hidle, hhead⟩ := enabledB_deq he
      obtain ⟨rest, horder⟩ := head_eq_cons hhead
      obtain ⟨item, hfound⟩ := hinv.order_keys id (horder ▸ List.mem_cons_self _ _)
      have hw : (stepFn st (Ev.deq id)).worker = WorkerPhase.busy id := by
        show (queue_worker_dequeue st).worker = _
        rw [queue_worker_dequeue_found horder hfound]
      rw [hw] at hih
      show AltFrom st.worker (Ev.deq id :: workerEvsOnly evs)
      rw [hidle]
      exact AltFrom.deq id _ hih
    | fin id o =>
      have hbusy := enabledB_fin he
      have hw : (stepFn st (Ev.fin id o)).worker = WorkerPhase.idle :=
        queue_worker_finish_worker st id o
      rw [hw] at hih
      show AltFrom st.worker (Ev.fin id o :: workerEvsOnly evs)
      rw [hbusy]
      exact AltFrom.fin id o _ hih

theorem fifo_accounting : ∀ (evs : List Ev) (st : SysState),
    Inv st → legalB st evs = true →
    (∀ e ∈ evs, isNotResetEv e = true) → (∀ e ∈ evs, isSuccessEv e = true) →
    compIds evs ++ pendingIds (runEvents st evs) = pendingIds st ++ enqIds evs
  | [], st, _, _, _, _ => by simp [compIds, enqIds, runEvents]
  | e :: evs, st, hinv, hl, hnr, hok => by
    obtain ⟨he, hrest⟩ := legalB_cons.mp hl
    have hinv2 : Inv (stepFn st e) := inv_step hinv he
    have hih := fifo_accounting evs (stepFn st e) hinv2 hrest
      (fun x hx => hnr x (List.mem_cons_of_mem _ hx))
      (fun x hx => hok x (List.mem_cons_of_mem _ hx))
    cases e with
    | enq id body =>
      have hpend : pendingIds (stepFn st (Ev.enq id body)) = pendingIds st ++ [id] := by
        show (match st.worker with
              | WorkerPhase.busy b => [b]
              | WorkerPhase.idle => []) ++ (st.queue_order ++ [id]) =
          ((match st.worker with
            | WorkerPhase.busy b => [b]
            | WorkerPhase.idle => []) ++ st.queue_order) ++ [id]
        rw [List.append_assoc]
      rw [hpend] at hih
      show compIds evs ++ pendingIds (runEvents (stepFn st (Ev.enq id body)) evs) =
        pendingIds st ++ (id :: enqIds evs)
      rw [hih, List.append_assoc]
      rfl
    | deq id =>
      obtain ⟨hidle, hhead⟩ := enabledB_deq he
      obtain ⟨rest, horder⟩ := head_eq_cons hhead
      obtain ⟨item, hfound⟩ := hinv.order_keys id (horder ▸ List.mem_cons_self _ _)
      have hpend : pendingIds (stepFn st (Ev.deq id)) = pendingIds st := by
        show pendingIds (queue_worker_dequeue st) = pendingIds st
        rw [queue_worker_dequeue_found horder hfound]
        show [id] ++ rest = (match st.worker with
              | WorkerPhase.busy b => [b]
              | WorkerPhase.idle => []) ++ st.queue_order
        rw [hidle, horder]
        rfl
      rw [hpend] at hih
      exact hih
    | fin id o =>
      have hbusy := enabledB_fin he
      cases o with
      | error e2 =>
        have := hok (Ev.fin id (Except.error e2)) (List.mem_cons_self _ _)
        exact absurd this (by simp [isSuccessEv])
      | ok wav =>
        have hpend : pendingIds (stepFn st (Ev.fin id (Except.ok wav))) =
            st.queue_order := by
          show pendingIds (queue_worker_finish st id (Except.ok wav)) = _
          rw [pendingIds, queue_worker_finish_worker, queue_worker_finish_order]
          rfl
        have hpendst : pendingIds st = id :: st.queue_order := by
          rw [pendingIds, hbusy]
          rfl
        rw [hpend] at hih
        show id :: (compIds evs ++
            pendingIds (runEvents (stepFn st (Ev.fin id (Except.ok wav))) evs)) =
          pendingIds st ++ enqIds evs
        rw [hpendst, hih]
        rfl
    | reset =>
      have := hnr Ev.reset (List.mem_cons_self _ _)
      exact absurd this (by simp [isNotResetEv])

theorem statusOf_step_completed {st : SysState} {e : Ev} {i : String}
    (hinv : Inv st) (he : enabledB st e = true) (hnr : isNotResetEv e = true)
    (hc : statusOf st i = some Status.completed) :
    statusOf (stepFn st e) i = some Status.completed := by
  obtain ⟨it, hit, hs⟩ := statusOf_some_iff.mp hc
  cases e with
  | enq id body =>
    have hlook : alookup (stepFn st (Ev.enq id body)).queue_items i = some it :=
      alookup_append_of_some _ hit
    rw [statusOf, hlook]
    rw [← hs]
    rfl
  | deq id =>
    rcases hq : st.queue_order with _ | ⟨nid, rest⟩
    · have : stepFn st (Ev.deq id) = st := by
        show queue_worker_dequeue st = st
        simp [queue_worker_dequeue, hq]
      rw [this]
      exact hc
    · rcases hl : alookup st.queue_items nid with _ | item
      · have : (stepFn st (Ev.deq id)).queue_items = st.queue_items := by
          show (queue_worker_dequeue st).queue_items = st.queue_items
          simp [queue_worker_dequeue, hq, hl]
        rw [statusOf, this, hit, ← hs]
        rfl
      · have hqueued : item.status = Status.queued :=
          hinv.order_queued nid (hq ▸ List.mem_cons_self _ _) item hl
        have hine : i ≠ nid := by
          intro hii
          subst hii
          rw [hit] at hl
          rw [Option.some.inj hl] at hs
          rw [hs] at hqueued
          exact Status.noConfusion hqueued
        have hlook : alookup (stepFn st (Ev.deq id)).queue_items i = some it := by
          show alookup (queue_worker_dequeue st).queue_items i = some it
          rw [queue_worker_dequeue_found hq hl]
          show alookup (aset st.queue_items nid _) i = some it
          rw [alookup_aset_of_ne _ hine]
          exact hit
        rw [statusOf, hlook, ← hs]
        rfl
  | fin nid o =>
    have hbusy := enabledB_fin he
    rcases hl : alookup st.queue_items nid with _ | item
    · have : (stepFn st (Ev.fin nid o)).queue_items = st.queue_items := by
        show (queue_worker_finish st nid o).queue_items = st.queue_items
        rw [queue_worker_finish_missing o hl]
      rw [statusOf, this, hit, ← hs]
      rfl
    · have hgen : item.status = Status.generating :=
        hinv.busy_status nid item hbusy hl
      have hine : i ≠ nid := by
        intro hii
        subst hii
        rw [hit] at hl
        rw [Option.some.inj hl] at hs
        rw [hs] at hgen
        exact Status.noConfusion hgen
      have hlook : alookup (stepFn st (Ev.fin nid o)).queue_items i = some it := by
        show alookup (queue_worker_finish st nid o).queue_items i = some it
        cases o with
        | error e2 =>
          rw [queue_worker_finish_err e2 hl]
          show alookup (aset st.queue_items nid _) i = some it
          rw [alookup_aset_of_ne _ hine]
          exact hit
        | ok wav =>
          rw [queue_worker_finish_ok wav hl]
          show alookup (aset st.queue_items nid _) i = some it
          rw [alookup_aset_of_ne _ hine]
          exact hit
      rw [statusOf, hlook, ← hs]
      rfl
  | reset => exact absurd hnr (by simp [isNotResetEv])

theorem completed_persists : ∀ (evs : List Ev) (st : SysState) (i : String),
    Inv st → legalB st evs = true →
    (∀ e ∈ evs, isNotResetEv e = true) →
    statusOf st i = some Status.completed →
    statusOf (runEvents st evs) i = some Status.completed
  | [], _, _, _, _, _, hc => hc
  | e :: evs, st, i, hinv, hl, hnr, hc => by
    obtain ⟨he, hrest⟩ := legalB_cons.mp hl
    exact completed_persists evs (stepFn st e) i (inv_step hinv he) hrest
      (fun x hx => hnr x (List.mem_cons_of_mem _ hx))
      (statusOf_step_completed hinv he (hnr e (List.mem_cons_self _ _)) hc)

/-- Between its dequeue and its outcome write-back, the worker's in-flight
job is present in the store (true along reset-free executions). -/
def BusyPresent (st : SysState) : Prop :=
  ∀ b, st.worker = WorkerPhase.busy b →
    ∃ it, alookup st.queue_items b = some it

theorem busyPresent_step {st : SysState} {e : Ev}
    (hinv : Inv st) (he : enabledB st e = true) (hnr : isNotResetEv e = true)
    (hb : BusyPresent st) : BusyPresent (stepFn st e) := by
  cases e with
  | enq id body =>
    intro b hw
    obtain ⟨it, hit⟩ := hb b hw
    exact ⟨it, alookup_append_of_some _ hit⟩
  | deq id =>
    obtain ⟨hidle, hhead⟩ := enabledB_deq he
    obtain ⟨rest, horder⟩ := head_eq_cons hhead
    obtain ⟨item, hfound⟩ := hinv.order_keys id (horder ▸ List.mem_cons_self _ _)
    intro b hw
    have hw2 : (queue_worker_dequeue st).worker = WorkerPhase.busy id := by
      rw [queue_worker_dequeue_found horder hfound]
    have hbe : id = b := WorkerPhase.busy.inj ((hw2.symm.trans hw))
    subst hbe
    refine ⟨{ item with status := Status.generating, error_message := none }, ?_⟩
    show alookup (queue_worker_dequeue st).queue_items id = _
    rw [queue_worker_dequeue_found horder hfound]
    exact alookup_aset_self _ hfound
  | fin nid o =>
    intro b hw
    have hw2 : WorkerPhase.idle = WorkerPhase.busy b :=
      (queue_worker_finish_worker st nid o).symm.trans hw
    exact WorkerPhase.noConfusion hw2
  | reset => exact absurd hnr (by simp [isNotResetEv])

theorem compIds_completed : ∀ (evs : List Ev) (st : SysState),
    Inv st → BusyPresent st → legalB st evs = true →
    (∀ e ∈ evs, isNotResetEv e = true) →
    ∀ i ∈ compIds evs, statusOf (runEvents st evs) i = some Status.completed
  | [], _, _, _, _, _, _, hi => by simp [compIds] at hi
  | e :: evs, st, hinv, hbp, hl, hnr, i, hi => by
    obtain ⟨he, hrest⟩ := legalB_cons.mp hl
    have hinv2 : Inv (stepFn st e) := inv_step hinv he
    have hbp2 : BusyPresent (stepFn st e) :=
      busyPresent_step hinv he (hnr e (List.mem_cons_self _ _)) hbp
    have hnr2 : ∀ x ∈ evs, isNotResetEv x = true :=
      fun x hx => hnr x (List.mem_cons_of_mem _ hx)
    cases e with
    | enq id body =>
      exact compIds_completed evs _ hinv2 hbp2 hrest hnr2 i hi
    | deq id =>
      exact compIds_completed evs _ hinv2 hbp2 hrest hnr2 i hi
    | reset =>
      exact compIds_completed evs _ hinv2 hbp2 hrest hnr2 i hi
    | fin id o =>
      cases o with
      | error e2 =>
        exact compIds_completed evs _ hinv2 hbp2 hrest hnr2 i hi
      | ok wav =>
        have hbusy := enabledB_fin he
        obtain ⟨item, hfound⟩ := hbp id hbusy
        rcases List.mem_cons.mp hi with hie | hitail
        · subst hie
          exact completed_persists evs _ i hinv2 hrest hnr2
            (statusOf_finish_ok_self wav hfound)
        · exact compIds_completed evs _ hinv2 hbp2 hrest hnr2 i hitail

/-- C1: along any legal execution from process start, the sequence of
distinct status values any job takes is a prefix of
queued, generating, completed or of queued, generating, failed — a job
never returns to queued after leaving it, never skips generating on the
way to a terminal state, and takes no transition after completed or
failed. -/
theorem c1_status_history_prefix (evs : List Ev) (id : String)
    (hlegal : legalB initState evs = true) :
    dedupAdj (statusTrace id initState evs) <+:
        [Status.queued, Status.generating, Status.completed] ∨
      dedupAdj (statusTrace id initState evs) <+:
        [Status.queued, Status.generating, Status.failed] :=
  statusTrace_from_none evs initState id inv_initState hlegal rfl

theorem c1_status_history_prefix_witness :
    legalB initState
        [Ev.enq "a" sampleBody, Ev.deq "a", Ev.fin "a" (Except.ok [7])] = true ∧
      (dedupAdj (statusTrace "a" initState
            [Ev.enq "a" sampleBody, Ev.deq "a", Ev.fin "a" (Except.ok [7])]) <+:
          [Status.queued, Status.generating, Status.completed] ∨
        dedupAdj (statusTrace "a" initState
            [Ev.enq "a" sampleBody, Ev.deq "a", Ev.fin "a" (Except.ok [7])]) <+:
          [Status.queued, Status.generating, Status.failed]) :=
  ⟨by decide,
   c1_status_history_prefix
     [Ev.enq "a" sampleBody, Ev.deq "a", Ev.fin "a" (Except.ok [7])] "a" (by decide)⟩

/-- C2: in every reachable state of the store, at most one job has status
generating — any two generating jobs are the same job. -/
theorem c2_at_most_one_generating {st : SysState} {id1 id2 : String}
    (hreach : Reachable st)
    (h1 : statusOf st id1 = some Status.generating)
    (h2 : statusOf st id2 = some Status.generating) : id1 = id2 := by
  have hinv := inv_reachable hreach
  obtain ⟨it1, hit1, hs1⟩ := statusOf_some_iff.mp h1
  obtain ⟨it2, hit2, hs2⟩ := statusOf_some_iff.mp h2
  have hb1 := hinv.gen_busy id1 it1 hit1 hs1
  have hb2 := hinv.gen_busy id2 it2 hit2 hs2
  exact WorkerPhase.busy.inj (hb1.symm.trans hb2)

theorem c2_at_most_one_generating_witness :
    statusOf (runEvents initState [Ev.enq "a" sampleBody, Ev.deq "a"]) "a" =
        some Status.generating ∧ ("a" : String) = "a" :=
  ⟨by decide,
   c2_at_most_one_generating
     ⟨[Ev.enq "a" sampleBody, Ev.deq "a"], by decide, rfl⟩ (by decide) (by decide)⟩

/-- C6: in every reachable state, a stored job's result bytes are present
iff its status is completed, and its error message is present iff its
status is failed. -/
theorem c6_result_error_iff_status {st : SysState} {id : String}
    {it : GenerationQueueItem} (hreach : Reachable st)
    (hit : alookup st.queue_items id = some it) :
    (it.wav_bytes.isSome = true ↔ it.status = Status.completed) ∧
      (it.error_message.isSome = true ↔ it.status = Status.failed) := by
  have hinv := inv_reachable hreach
  exact ⟨hinv.wav_iff (id, it) (alookup_mem hit),
    hinv.err_iff (id, it) (alookup_mem hit)⟩

theorem c6_result_error_iff_status_witness :
    ((some [7] : Option (List Nat)).isSome = true ↔
        Status.completed = Status.completed) ∧
      ((none : Option String).isSome = true ↔ Status.completed = Status.failed) :=
  c6_result_error_iff_status
    ⟨[Ev.enq "a" sampleBody, Ev.deq "a", Ev.fin "a" (Except.ok [7])], by decide, rfl⟩
    (show alookup
        (runEvents initState
          [Ev.enq "a" sampleBody, Ev.deq "a", Ev.fin "a" (Except.ok [7])]).queue_items
        "a" =
      some { id := "a"
             prompt := "chill lofi jazz, 80 BPM"
             status := Status.completed
             tempo := 80
             duration := 40
             wav_bytes := some [7]
             error_message := none } by decide)

/-- C7: if the synchronous facade's deadline elapses while the job's stored
status is not terminal, the facade reports the timeout error, the store is
left unchanged, and the job's status is still queued or generating. -/
theorem c7_sync_timeout_frame {st : SysState} {item_id : String}
    {it : GenerationQueueItem}
    (hit : alookup st.queue_items item_id = some it)
    (hnc : it.status ≠ Status.completed) (hnf : it.status ≠ Status.failed) :
    generate_audio_for_request_at_deadline st item_id =
        (Except.error AudioServiceError.audioGenerationTimeout, st) ∧
      (it.status = Status.queued ∨ it.status = Status.generating) := by
  constructor
  · have hwait : wait_for_terminal_status_at_deadline st item_id = (none, st) := by
      simp [wait_for_terminal_status_at_deadline, hit, hnc, hnf]
    simp [generate_audio_for_request_at_deadline, hwait]
  · cases hs : it.status with
    | queued => exact Or.inl rfl
    | generating => exact Or.inr rfl
    | completed => exact absurd hs hnc
    | failed => exact absurd hs hnf

theorem c7_sync_timeout_frame_witness :
    generate_audio_for_request_at_deadline
          (runEvents initState [Ev.enq "a" sampleBody]) "a" =
        (Except.error AudioServiceError.audioGenerationTimeout,
          runEvents initState [Ev.enq "a" sampleBody]) ∧
      (Status.queued = Status.queued ∨ Status.queued = Status.generating) :=
  c7_sync_timeout_frame
    (show alookup (runEvents initState [Ev.enq "a" sampleBody]).queue_items "a" =
      some { id := "a"
             prompt := "chill lofi jazz, 80 BPM"
             status := Status.queued
             tempo := 80
             duration := 40
             wav_bytes := none
             error_message := none } by decide)
    (by decide) (by decide)

/-- C8: in every reachable state, the async result operation returns
not-found for an unknown id, not-ready while the job is queued or
generating, the failure error when it is failed, and the stored bytes when
it is completed. -/
theorem c8_async_result_cases {st : SysState} (id : String) (hreach : Reachable st) :
    (alookup st.queue_items id = none →
      get_generation_request_audio st id =
        Except.error AudioServiceError.queueItemNotFound) ∧
    (∀ it, alookup st.queue_items id = some it →
      (it.status = Status.queued ∨ it.status = Status.generating) →
      get_generation_request_audio st id =
        Except.error AudioServiceError.audioNotReady) ∧
    (∀ it, alookup st.queue_items id = some it → it.status = Status.failed →
      get_generation_request_audio st id =
        Except.error AudioServiceError.audioGenerationFailed) ∧
    (∀ it, alookup st.queue_items id = some it → it.status = Status.completed →
      ∃ bs, it.wav_bytes = some bs ∧
        get_generation_request_audio st id = Except.ok bs) := by
  have hinv := inv_reachable hreach
  refine ⟨?_, ?_, ?_, ?_⟩
  · intro hn
    simp [get_generation_request_audio, get_queue_item_snapshot, hn]
  · intro it hit hqg
    have hwav : it.wav_bytes = none := by
      rcases hx : it.wav_bytes with _ | b
      · rfl
      · have hc := (hinv.wav_iff (id, it) (alookup_mem hit)).mp (by rw [hx]; rfl)
        rcases hqg with hq | hg
        · exact absurd (hq.symm.trans hc) (by decide)
        · exact absurd (hg.symm.trans hc) (by decide)
    have hnf : it.status ≠ Status.failed := by
      rcases hqg with hq | hg
      · rw [hq]
        decide
      · rw [hg]
        decide
    simp [get_generation_request_audio, get_queue_item_snapshot, hit, hnf, hwav]
  · intro it hit hf
    simp [get_generation_request_audio, get_queue_item_snapshot, hit, hf]
  · intro it hit hc
    obtain ⟨bs, hbs⟩ : ∃ bs, it.wav_bytes = some bs := by
      rcases hx : it.wav_bytes with _ | b
      · have hsome := (hinv.wav_iff (id, it) (alookup_mem hit)).mpr hc
        rw [hx] at hsome
        exact Bool.noConfusion hsome
      · exact ⟨b, rfl⟩
    have hnf : it.status ≠ Status.failed := by
      rw [hc]
      decide
    exact ⟨bs, hbs, by
      simp [get_generation_request_audio, get_queue_item_snapshot, hit, hnf, hbs, hc]⟩

theorem c8_async_result_cases_witness :
    get_generation_request_audio (runEvents initState [Ev.enq "a" sampleBody]) "b" =
      Except.error AudioServiceError.queueItemNotFound :=
  (c8_async_result_cases "b" ⟨[Ev.enq "a" sampleBody], by decide, rfl⟩).1 (by decide)

/-- C10: enqueue stores a text-mode job with tempo fixed at 80 regardless
of the tempo in the request body, stores every other mode's tempo
unchanged, and the returned item is the stored one. -/
theorem c10_text_mode_tempo (st : SysState) (fresh_id : String)
    (body : GenerateRequestBody) :
    (body.mode = Mode.text →
      (enqueue_generation_request st fresh_id body).2.tempo = 80) ∧
    (body.mode ≠ Mode.text →
      (enqueue_generation_request st fresh_id body).2.tempo = body.tempo) ∧
    (fresh_id, (enqueue_generation_request st fresh_id body).2) ∈
      (enqueue_generation_request st fresh_id body).1.queue_items := by
  refine ⟨?_, ?_, ?_⟩
  · intro hm
    simp [enqueue_generation_request, new_queue_item, hm]
  · intro hm
    simp [enqueue_generation_request, new_queue_item, hm]
  · rw [enq_fst_eq, enq_snd_eq]
    exact List.mem_append.mpr (Or.inr (List.mem_singleton.mpr rfl))

theorem c10_text_mode_tempo_witness :
    (enqueue_generation_request initState "a" sampleTextBody).2.tempo = 80 ∧
      (enqueue_generation_request initState "b" sampleBody).2.tempo = 80 :=
  ⟨(c10_text_mode_tempo initState "a" sampleTextBody).1 rfl,
   (c10_text_mode_tempo initState "b" sampleBody).2.1 (by decide)⟩

/-- C3: along any reset-free execution in which every external-client
invocation succeeds, the ids of completed jobs form a prefix of the ids in
enqueue order (strict FIFO), every such job's final status is completed,
and the worker's dequeues and write-backs strictly alternate, so each job
enters generating (at its dequeue) and is written back before the next
job is dequeued. -/
theorem c3_fifo_completion_order (evs : List Ev)
    (hlegal : legalB initState evs = true)
    (hnr : ∀ e ∈ evs, isNotResetEv e = true)
    (hok : ∀ e ∈ evs, isSuccessEv e = true) :
    compIds evs <+: enqIds evs ∧
      (∀ i ∈ compIds evs,
        statusOf (runEvents initState evs) i = some Status.completed) ∧
      AltFrom WorkerPhase.idle (workerEvsOnly evs) := by
  refine ⟨?_, ?_, ?_⟩
  · have hacc := fifo_accounting evs initState inv_initState hlegal hnr hok
    rw [show pendingIds initState = [] from rfl, List.nil_append] at hacc
    exact ⟨_, hacc⟩
  · exact compIds_completed evs initState inv_initState
      (fun b hb => WorkerPhase.noConfusion hb) hlegal hnr
  · exact worker_alternation evs initState inv_initState hlegal

theorem c3_fifo_completion_order_witness :
    compIds [Ev.enq "a" sampleBody, Ev.enq "b" sampleBody, Ev.deq "a",
        Ev.fin "a" (Except.ok [1]), Ev.deq "b", Ev.fin "b" (Except.ok [2])] <+:
      enqIds [Ev.enq "a" sampleBody, Ev.enq "b" sampleBody, Ev.deq "a",
        Ev.fin "a" (Except.ok [1]), Ev.deq "b", Ev.fin "b" (Except.ok [2])] ∧
    (∀ i ∈ compIds [Ev.enq "a" sampleBody, Ev.enq "b" sampleBody, Ev.deq "a",
        Ev.fin "a" (Except.ok [1]), Ev.deq "b", Ev.fin "b" (Except.ok [2])],
      statusOf (runEvents initState
        [Ev.enq "a" sampleBody, Ev.enq "b" sampleBody, Ev.deq "a",
         Ev.fin "a" (Except.ok [1]), Ev.deq "b", Ev.fin "b" (Except.ok [2])]) i =
        some Status.completed) ∧
    AltFrom WorkerPhase.idle (workerEvsOnly
      [Ev.enq "a" sampleBody, Ev.enq "b" sampleBody, Ev.deq "a",
       Ev.fin "a" (Except.ok [1]), Ev.deq "b", Ev.fin "b" (Except.ok [2])]) :=
  c3_fifo_completion_order
    [Ev.enq "a" sampleBody, Ev.enq "b" sampleBody, Ev.deq "a",
     Ev.fin "a" (Except.ok [1]), Ev.deq "b", Ev.fin "b" (Except.ok [2])]
    (by decide) (by decide) (by decide)

theorem drainQueue_no_reset : ∀ (q : List String), ∀ e ∈ drainQueue q,
    isNotResetEv e = true
  | [], e, he => by simp [drainQueue] at he
  | id :: rest, e, he => by
    rcases List.mem_cons.mp he with h1 | h2
    · subst h1
      rfl
    · rcases List.mem_cons.mp h2 with h3 | h4
      · subst h3
        rfl
      · exact drainQueue_no_reset rest e h4

theorem drain_completes : ∀ (q : List String) (st : SysState),
    Inv st → st.worker = WorkerPhase.idle → st.queue_order = q →
    legalB st (drainQueue q) = true ∧
      ∀ i ∈ q, statusOf (runEvents st (drainQueue q)) i = some Status.completed
  | [], st, _, _, _ => ⟨rfl, fun i hi => absurd hi (List.not_mem_nil i)⟩
  | id :: rest, st, hinv, hidle, horder => by
    obtain ⟨item, hfound⟩ := hinv.order_keys id (horder ▸ List.mem_cons_self _ _)
    have hhead : st.queue_order.head? = some id := by
      rw [horder]
      rfl
    have hedeq : enabledB st (Ev.deq id) = true := by
      simp [enabledB, hidle, hhead]
    have hinv1 : Inv (stepFn st (Ev.deq id)) := inv_step hinv hedeq
    have hworker1 : (stepFn st (Ev.deq id)).worker = WorkerPhase.busy id := by
      show (queue_worker_dequeue st).worker = _
      rw [queue_worker_dequeue_found horder hfound]
    have hefin : enabledB (stepFn st (Ev.deq id)) (Ev.fin id (Except.ok [])) = true := by
      simp [enabledB, hworker1]
    have hfound1 : alookup (stepFn st (Ev.deq id)).queue_items id =
        some { item with status := Status.generating, error_message := none } := by
      show alookup (queue_worker_dequeue st).queue_items id = _
      rw [queue_worker_dequeue_found horder hfound]
      exact alookup_aset_self _ hfound
    have hinv2 : Inv (stepFn (stepFn st (Ev.deq id)) (Ev.fin id (Except.ok []))) :=
      inv_step hinv1 hefin
    have hworker2 :
        (stepFn (stepFn st (Ev.deq id)) (Ev.fin id (Except.ok []))).worker =
          WorkerPhase.idle :=
      queue_worker_finish_worker _ _ _
    have horder1 : (stepFn st (Ev.deq id)).queue_order = rest := by
      show (queue_worker_dequeue st).queue_order = rest
      rw [queue_worker_dequeue_found horder hfound]
    have horder2 :
        (stepFn (stepFn st (Ev.deq id)) (Ev.fin id (Except.ok []))).queue_order =
          rest :=
      (queue_worker_finish_order _ _ _).trans horder1
    have hcomp2 :
        statusOf (stepFn (stepFn st (Ev.deq id)) (Ev.fin id (Except.ok []))) id =
          some Status.completed :=
      statusOf_finish_ok_self [] hfound1
    obtain ⟨hlegalrest, hcomprest⟩ := drain_completes rest _ hinv2 hworker2 horder2
    refine ⟨legalB_cons.mpr ⟨hedeq, legalB_cons.mpr ⟨hefin, hlegalrest⟩⟩, ?_⟩
    intro i hi
    rcases List.mem_cons.mp hi with hie | hirest
    · subst hie
      exact completed_persists (drainQueue rest) _ i hinv2 hlegalrest
        (drainQueue_no_reset rest) hcomp2
    · exact hcomprest i hirest

/-- C5: when the external call for the worker's in-flight job raises any
exception, the worker marks that job failed with the generic message, and
the worker keeps serving the queue: a job enqueued right afterwards can
still be driven to completed by the worker with a successful client. -/
theorem c5_failure_does_not_block_queue {st : SysState} {b : String}
    {it : GenerationQueueItem} (hreach : Reachable st)
    (hbusy : st.worker = WorkerPhase.busy b)
    (hit : alookup st.queue_items b = some it) (e : PyErr) (id2 : String)
    (body : GenerateRequestBody) (hfresh : id2 ∉ st.used_ids) :
    statusOf (stepFn st (Ev.fin b (Except.error e))) b = some Status.failed ∧
      errorMessageOf (stepFn st (Ev.fin b (Except.error e))) b =
        some "Audio generation failed" ∧
      (∃ evs, legalB (stepFn (stepFn st (Ev.fin b (Except.error e)))
            (Ev.enq id2 body)) evs = true ∧
        statusOf (runEvents (stepFn (stepFn st (Ev.fin b (Except.error e)))
            (Ev.enq id2 body)) evs) id2 = some Status.completed) := by
  have hinv := inv_reachable hreach
  have hefin : enabledB st (Ev.fin b (Except.error e)) = true := by
    simp [enabledB, hbusy]
  have hinv1 : Inv (stepFn st (Ev.fin b (Except.error e))) := inv_step hinv hefin
  have hfresh1 : id2 ∉ (stepFn st (Ev.fin b (Except.error e))).used_ids := by
    intro hmem
    apply hfresh
    have := queue_worker_finish_used st b (Except.error e)
    exact this ▸ hmem
  have heenq : enabledB (stepFn st (Ev.fin b (Except.error e)))
      (Ev.enq id2 body) = true := by
    simp [enabledB, hfresh1]
  have hinv2 : Inv (stepFn (stepFn st (Ev.fin b (Except.error e)))
      (Ev.enq id2 body)) := inv_step hinv1 heenq
  have hworker2 : (stepFn (stepFn st (Ev.fin b (Except.error e)))
      (Ev.enq id2 body)).worker = WorkerPhase.idle := by
    show (stepFn st (Ev.fin b (Except.error e))).worker = WorkerPhase.idle
    exact queue_worker_finish_worker _ _ _
  have hmem2 : id2 ∈ (stepFn (stepFn st (Ev.fin b (Except.error e)))
      (Ev.enq id2 body)).queue_order := by
    show id2 ∈ (stepFn st (Ev.fin b (Except.error e))).queue_order ++ [id2]
    exact List.mem_append.mpr (Or.inr (List.mem_singleton.mpr rfl))
  obtain ⟨hlegal, hcomp⟩ := drain_completes
    ((stepFn (stepFn st (Ev.fin b (Except.error e))) (Ev.enq id2 body)).queue_order)
    _ hinv2 hworker2 rfl
  exact ⟨statusOf_finish_err_self e hit, errorMessageOf_finish_err_self e hit,
    ⟨_, hlegal, hcomp id2 hmem2⟩⟩

theorem c5_failure_does_not_block_queue_witness :
    statusOf (stepFn (runEvents initState [Ev.enq "a" sampleBody, Ev.deq "a"])
        (Ev.fin "a" (Except.error ⟨ExcKind.urlError, "URLError"⟩))) "a" =
      some Status.failed ∧
    errorMessageOf (stepFn (runEvents initState [Ev.enq "a" sampleBody, Ev.deq "a"])
        (Ev.fin "a" (Except.error ⟨ExcKind.urlError, "URLError"⟩))) "a" =
      some "Audio generation failed" ∧
    (∃ evs, legalB (stepFn (stepFn
          (runEvents initState [Ev.enq "a" sampleBody, Ev.deq "a"])
          (Ev.fin "a" (Except.error ⟨ExcKind.urlError, "URLError"⟩)))
          (Ev.enq "b" sampleBody)) evs = true ∧
      statusOf (runEvents (stepFn (stepFn
          (runEvents initState [Ev.enq "a" sampleBody, Ev.deq "a"])
          (Ev.fin "a" (Except.error ⟨ExcKind.urlError, "URLError"⟩)))
          (Ev.enq "b" sampleBody)) evs) "b" = some Status.completed) :=
  c5_failure_does_not_block_queue
    ⟨[Ev.enq "a" sampleBody, Ev.deq "a"], by decide, rfl⟩
    (by decide)
    (show alookup (runEvents initState
          [Ev.enq "a" sampleBody, Ev.deq "a"]).queue_items "a" =
        some { id := "a"
               prompt := "chill lofi jazz, 80 BPM"
               status := Status.generating
               tempo := 80
               duration := 40
               wav_bytes := none
               error_message := none } by decide)
    ⟨ExcKind.urlError, "URLError"⟩ "b" sampleBody (by decide)

theorem pollGo_pending_step (resp : Nat → PostResp) (fuel calls : Nat)
    (hp : pendingClassB (resp calls) = true) :
    pollGo resp (fuel + 1) calls = pollGo resp fuel (calls + 1) := by
  simp only [pendingClassB, pollRespStatus] at hp
  rcases hpj : post_json (resp calls) with e | fields
  · simp only [hpj] at hp
    exact Bool.noConfusion hp
  · simp only [hpj] at hp
    rcases hjg : json_get (poll_query_item fields) "status" with e2 | status
    · simp only [hjg] at hp
      exact Bool.noConfusion hp
    · simp only [hjg] at hp
      simp only [Bool.and_eq_true, Bool.not_eq_true'] at hp
      simp [pollGo, hpj, hjg, hp.1, hp.2]

theorem pollGo_pending_run (resp : Nat → PostResp) :
    ∀ (k fuel calls : Nat),
    (∀ i, calls ≤ i → i < calls + k → pendingClassB (resp i) = true) →
    pollGo resp (fuel + k) calls = pollGo resp fuel (calls + k)
  | 0, _, _, _ => rfl
  | k + 1, fuel, calls, hp => by
    have hstep := pollGo_pending_step resp (fuel + k) calls
      (hp calls (Nat.le_refl _) (by omega))
    have hrec := pollGo_pending_run resp k fuel (calls + 1)
      (fun i h0 hi => hp i (by omega) (by omega))
    have harith : calls + 1 + k = calls + (k + 1) := by omega
    calc pollGo resp (fuel + (k + 1)) calls
        = pollGo resp (fuel + k) (calls + 1) := hstep
      _ = pollGo resp fuel (calls + 1 + k) := hrec
      _ = pollGo resp fuel (calls + (k + 1)) := by rw [harith]

/-- C4, counterexample: when every query response reports status 3 — a
value that is neither 0, 1 nor 2 — the poll loop does not raise a remote
failure immediately after one call; it retries through all
`MAX_POLL_ATTEMPTS` = 1200 attempts and then raises the polling-timeout
error, which is distinct from the task-failed error. -/
theorem c4_status_three_retries_counterexample :
    poll_until_complete (fun _ => respWithStatus 3) =
        (Except.error pollTimedOutErr, MAX_POLL_ATTEMPTS) ∧
      pollTimedOutErr ≠ taskFailedErr ∧ MAX_POLL_ATTEMPTS ≠ 1 := by
  refine ⟨?_, by decide, by decide⟩
  have hrun := pollGo_pending_run (fun _ => respWithStatus 3) MAX_POLL_ATTEMPTS 0 0
    (fun i _ _ => by
      show pendingClassB (respWithStatus 3) = true
      decide)
  rw [Nat.zero_add] at hrun
  exact hrun.trans rfl

/-- C4, amended: the poll loop interprets a status equal to 1 as done
(return the record), a status equal to 2 as remote failure raised at once
with no further queries, and any other outcome of reading the status
(0, 3, or a missing field) as pending — retry after the sleep; attempts
are bounded by `MAX_POLL_ATTEMPTS` and exhausting them raises the timeout
error, distinct from the task-failed error. -/
theorem c4_poll_semantics (resp : Nat → PostResp) (n : Nat)
    (hpend : ∀ i, i < n → pendingClassB (resp i) = true) :
    (∀ fields, n < MAX_POLL_ATTEMPTS → post_json (resp n) = Except.ok fields →
      (∀ status, json_get (poll_query_item fields) "status" = Except.ok status →
        (statusIsB status 1 = true →
          poll_until_complete resp = (Except.ok (poll_query_item fields), n + 1)) ∧
        (statusIsB status 1 = false → statusIsB status 2 = true →
          poll_until_complete resp = (Except.error taskFailedErr, n + 1)))) ∧
    (n = MAX_POLL_ATTEMPTS →
      poll_until_complete resp =
        (Except.error pollTimedOutErr, MAX_POLL_ATTEMPTS)) ∧
    taskFailedErr ≠ pollTimedOutErr := by
  refine ⟨?_, ?_, by decide⟩
  · intro fields hlt hpj status hjg
    have hrun := pollGo_pending_run resp n (MAX_POLL_ATTEMPTS - n) 0
      (fun i h0 hi => hpend i (by omega))
    have heq : (MAX_POLL_ATTEMPTS - n) + n = MAX_POLL_ATTEMPTS := by omega
    have hmn : MAX_POLL_ATTEMPTS - n = (MAX_POLL_ATTEMPTS - n - 1) + 1 := by omega
    rw [heq, Nat.zero_add] at hrun
    constructor
    · intro h1
      show pollGo resp MAX_POLL_ATTEMPTS 0 = _
      rw [hrun, hmn]
      simp [pollGo, hpj, hjg, h1]
    · intro h1 h2
      show pollGo resp MAX_POLL_ATTEMPTS 0 = _
      rw [hrun, hmn]
      simp [pollGo, hpj, hjg, h1, h2]
  · intro hn
    subst hn
    have hrun := pollGo_pending_run resp MAX_POLL_ATTEMPTS 0 0
      (fun i h0 hi => hpend i (by omega))
    rw [Nat.zero_add] at hrun
    exact hrun.trans rfl

theorem c4_poll_semantics_witness :
    poll_until_complete
        (fun i => if i < 3 then respWithStatus 0 else respWithStatus 1) =
      (Except.ok (Json.obj [("status", Json.num 1)]), 4) :=
  (((c4_poll_semantics
      (fun i => if i < 3 then respWithStatus 0 else respWithStatus 1) 3
      (fun i hi => by
        show pendingClassB
          (if i < 3 then respWithStatus 0 else respWithStatus 1) = true
        rw [if_pos hi]
        decide)).1
    [("data", Json.arr [Json.obj [("status", Json.num 1)]])]
    (by decide) rfl (some (Json.num 1)) rfl).1) rfl

/-- C9, counterexample: the errors that reach the worker from the external
task pipeline are not all of one kind — a transport failure surfaces as a
URLError while an unparsable response body surfaces as a JSONDecodeError. -/
theorem c9_not_single_error_kind :
    ¬ ∃ k : ExcKind, ∀ (env : Env) (e : PyErr),
        generate_audio_bytes_for_prompt env = Except.error e → e.kind = k := by
  rintro ⟨k, hk⟩
  have h1 : (⟨ExcKind.urlError, "URLError"⟩ : PyErr).kind = k :=
    hk envTransport _ rfl
  have h2 : (⟨ExcKind.jsonDecodeError, "Expecting value"⟩ : PyErr).kind = k :=
    hk envParse _ rfl
  exact ExcKind.noConfusion (h1.trans h2.symm)

/-- C9, amended: pipeline failures reach the worker as several distinct
exception kinds (a transport failure as URLError, an unparsable body as
JSONDecodeError, protocol violations as RuntimeError, ...); the single
failure category exists only after the worker's handling, whose outcome
write-back treats every exception identically — the resulting state does
not depend on which exception was raised. -/
theorem c9_worker_normalizes_errors :
    generate_audio_bytes_for_prompt envTransport =
        Except.error ⟨ExcKind.urlError, "URLError"⟩ ∧
      generate_audio_bytes_for_prompt envParse =
        Except.error ⟨ExcKind.jsonDecodeError, "Expecting value"⟩ ∧
      ∀ (st : SysState) (b : String) (e1 e2 : PyErr),
        stepFn st (Ev.fin b (Except.error e1)) =
          stepFn st (Ev.fin b (Except.error e2)) := by
  refine ⟨rfl, rfl, ?_⟩
  intro st b e1 e2
  rcases hl : alookup st.queue_items b with _ | item
  · show queue_worker_finish st b (Except.error e1) =
      queue_worker_finish st b (Except.error e2)
    rw [queue_worker_finish_missing _ hl, queue_worker_finish_missing _ hl]
  · show queue_worker_finish st b (Except.error e1) =
      queue_worker_finish st b (Except.error e2)
    rw [queue_worker_finish_err e1 hl, queue_worker_finish_err e2 hl]

end ReelpodStudio
